import Mathlib

/-!
# faas-federation: provider resolution and service aggregation

A shallow embedding of `routing/provider.go` and `routing/services.go`.

Conventions of the embedding

* A Go pointer `*T` is an `Option T` (`none` is `nil`) wherever the source can
  meet a nil pointer; dereferencing `none` is the runtime failure
  `Panic.nilPointerDereference`.
* A Go `map[K]V` is a `GoMap K V`: an association list with at most one entry
  per key.  The order in which `range` visits a map is not fixed by the
  language, so every loop over a map takes the visiting order as an explicit
  argument, a permutation of the entries.
* A Go function returning `(x, err)` returns a pair of options; a function that
  can fail at run time returns `Except Panic _`.
* Functions of the Go standard library (`url.Parse`, `strings.EqualFold`,
  `json.Unmarshal`) are the fields of a `Lib` record and are left abstract in
  every general theorem.  `goLib` is a concrete record used to evaluate the
  code on concrete inputs.
* Logging has no effect on results and is left out, except that the arguments
  of a log call are still evaluated (an index expression in them can fail).
-/

namespace FaasFederation

/-! ## Runtime failures -/

/-- Runtime failures (Go panics) the embedded code can raise. -/
inductive Panic where
  | nilPointerDereference
  | indexOutOfRange
  deriving DecidableEq, Repr

deriving instance DecidableEq for Except

/-! ## Go maps -/

/-- Go map as an association list holding at most one entry per key. -/
abbrev GoMap (κ : Type) (ν : Type) := List (κ × ν)

/-- Map read `m[k]` in its two-result form: the value, if the key is present. -/
def GoMap.get? {κ ν : Type} [DecidableEq κ] : GoMap κ ν → κ → Option ν
  | [], _ => none
  | (k', v) :: rest, k => if k' = k then some v else GoMap.get? rest k

/-- Map write `m[k] = v`: replaces the entry of `k` when there is one, adds an
entry otherwise. -/
def GoMap.set {κ ν : Type} [DecidableEq κ] : GoMap κ ν → κ → ν → GoMap κ ν
  | [], k, v => [(k, v)]
  | (k', v') :: rest, k, v =>
    if k' = k then (k, v) :: rest else (k', v') :: GoMap.set rest k v

/-- Keys of a map. -/
def GoMap.keys {κ ν : Type} (m : GoMap κ ν) : List κ := m.map Prod.fst

/-- An order in which `range` may visit the map `m`. -/
def GoMap.IterOrder {κ ν : Type} (m : GoMap κ ν) (order : List (κ × ν)) : Prop :=
  order.Perm m

/-! ## Strings -/

/-- Pieces of `cs` between the occurrences of the separator `sep`, with the
piece being read kept in `cur`. -/
def splitAux (sep : Char) : List Char → List Char → List (List Char)
  | [], cur => [cur.reverse]
  | c :: cs, cur =>
    if c = sep then cur.reverse :: splitAux sep cs [] else splitAux sep cs (c :: cur)

/-- Go `strings.Split(s, sep)` for a separator of one character: the pieces of
`s` between the separators; never empty. -/
def Split (s : String) (sep : Char) : List String :=
  (splitAux sep s.data []).map String.mk

/-! ## net/url -/

/-- Fields of `url.URL` the code reads or writes, and the ones that tell two
URLs apart. -/
structure URL where
  Scheme : String
  Host : String
  Path : String
  RawQuery : String
  Fragment : String
  deriving DecidableEq, Repr

/-! ## github.com/openfaas/faas/gateway/requests -/

/-- Resource limits of a function, `requests.FunctionResources`. -/
structure FunctionResources where
  Memory : String
  CPU : String
  deriving DecidableEq, Repr

/-- Creation request of a function, `requests.CreateFunctionRequest`; it is the
descriptor stored in the function registry. `Labels` and `Annotations` are
pointers to maps. -/
structure CreateFunctionRequest where
  Service : String
  Image : String
  Network : String
  EnvProcess : String
  EnvVars : GoMap String String
  Constraints : List String
  Secrets : List String
  Labels : Option (GoMap String String)
  Annotations : Option (GoMap String String)
  Limits : Option FunctionResources
  Requests : Option FunctionResources
  ReadOnlyRootFilesystem : Bool
  deriving DecidableEq, Repr

/-- Function summary, `requests.Function`. `InvocationCount` is a float64, kept
as its bit pattern; the replica counts are uint64. -/
structure Function where
  Name : String
  Image : String
  InvocationCount : Nat
  Replicas : Nat
  EnvProcess : String
  AvailableReplicas : Nat
  Labels : Option (GoMap String String)
  Annotations : Option (GoMap String String)
  deriving DecidableEq, Repr

/-! ## Standard library -/

/-- Functions of the Go standard library the code calls. -/
structure Lib where
  /-- Go `url.Parse`: the URL, or the text of the error. -/
  urlParse : String → Except String URL
  /-- Go `strings.EqualFold`: equality under Unicode case folding. -/
  EqualFold : String → String → Bool
  /-- Go `json.Unmarshal` into a `[]*requests.Function`: the decoded list (an
  element may be a nil pointer), or the text of the error. -/
  jsonUnmarshal : String → Except String (List (Option Function))

/-! ## routing/provider.go -/

/-- Reserved annotation key of the provider affinity. -/
def federationProviderNameConstraint : String := "com.openfaas.federation.gatewayx"

/-- State of the resolver, `defaultProviderRouting` without its lock: the
function registry `cache`, the provider directory `providers` and the default
provider. The pointers stored in the maps and `defaultProvider` are never nil:
`AddFunction` reads `f.Service` before it stores `f`, and the constructor only
stores URLs returned by a successful `url.Parse`. -/
structure defaultProviderRouting where
  cache : GoMap String CreateFunctionRequest
  providers : GoMap String URL
  defaultProvider : URL
  deriving DecidableEq, Repr

/-- Embeds `getHostNameWithoutPorts`: `strings.Split(v.Host, ":")[0]`. The
split never returns an empty list, so the index cannot fail. -/
def getHostNameWithoutPorts (v : URL) : String :=
  (Split v.Host ':').headD ""

/-- Loop of `NewDefaultProviderRouting` over the provider strings: parses each
one and stores it under its port-stripped hostname; stops with the error
message at the first string that does not parse. -/
def buildProviderMap (L : Lib) : List String → GoMap String URL → Except String (GoMap String URL)
  | [], providerMap => .ok providerMap
  | v :: rest, providerMap =>
    match L.urlParse v with
    | .error err => .error ("error parsing URL using value " ++ v ++ ". " ++ err)
    | .ok pURL => buildProviderMap L rest (providerMap.set (getHostNameWithoutPorts pURL) pURL)

/-- Embeds `NewDefaultProviderRouting`; the result is Go's pair
`(ProviderLookup, error)`. -/
def NewDefaultProviderRouting (L : Lib) (providers : List String) (defaultProvider : String) :
    Option defaultProviderRouting × Option String :=
  match buildProviderMap L providers [] with
  | .error msg => (none, some msg)
  | .ok providerMap =>
    match L.urlParse defaultProvider with
    | .error err =>
      (none, some ("error parsing default provider URL using value " ++ defaultProvider
        ++ ". " ++ err))
    | .ok d => (some { cache := [], providers := providerMap, defaultProvider := d }, none)

/-- Embeds `AddFunction` for a non-nil `f`: `d.cache[f.Service] = f`. -/
def AddFunction (d : defaultProviderRouting) (f : CreateFunctionRequest) :
    defaultProviderRouting :=
  { d with cache := d.cache.set f.Service f }

/-- Embeds `GetFunction`: `v, ok := d.cache[name]`. -/
def GetFunction (d : defaultProviderRouting) (name : String) :
    Option CreateFunctionRequest × Bool :=
  (d.cache.get? name, (d.cache.get? name).isSome)

/-- Embeds `matchBasedOnName`: the loop over the provider directory, visited in
the order `order`; the first provider whose port-stripped hostname equals `v`
under case folding, or nil. -/
def matchBasedOnName (L : Lib) : List (String × URL) → String → Option URL
  | [], _ => none
  | (_, u) :: rest, v =>
    if L.EqualFold (getHostNameWithoutPorts u) v then some u else matchBasedOnName L rest v

/-- Embeds `Resolve`, with `order` the order in which the provider directory
is visited; the result is Go's pair `(providerURI, err)`, or a runtime
failure. -/
def Resolve (L : Lib) (d : defaultProviderRouting) (order : List (String × URL))
    (functionName : String) : Except Panic (Option URL × Option String) :=
  match GetFunction d functionName with
  | (some f, true) =>
    match f.Annotations with
    | none => .error Panic.nilPointerDereference
    | some annotations =>
      match annotations.get? federationProviderNameConstraint with
      | none => .ok (some d.defaultProvider, none)
      | some c =>
        match matchBasedOnName L order c with
        | none => .ok (some d.defaultProvider, none)
        | some pURL => .ok (some pURL, none)
  | _ => .ok (none, some ("can not find function " ++ functionName ++ " in cache map"))

/-! ## routing/services.go -/

/-- HTTP response as `ReadServices` reads it: the status code and what
`ioutil.ReadAll` returns for the body, the bytes or the text of the error. -/
structure Response where
  StatusCode : Int
  Body : Except String String
  deriving DecidableEq, Repr

/-- Element of the list returned by `Get`: the index of the provider the fetch
was made for, the response and the transport error. -/
structure GetResult where
  Index : Int
  Response : Option Response
  Err : Option String
  deriving DecidableEq, Repr

/-- List of deployed functions by provider, `ReadServicesResult`. -/
structure ReadServicesResult where
  Providers : GoMap String (List (Option Function))
  deriving DecidableEq, Repr

/-- Slice index `xs[i]` with a Go `int`: a runtime failure outside the
bounds. -/
def sliceIndex {α : Type} (xs : List α) (i : Int) : Except Panic α :=
  if i < 0 then .error Panic.indexOutOfRange
  else
    match xs.get? i.toNat with
    | some x => .ok x
    | none => .error Panic.indexOutOfRange

/-- First loop of `ReadServices`: parses every provider string and sets the
path of the URL. The error of `url.Parse` is dropped by the source, and the
nil URL that comes with it is dereferenced by `u.Path = ...`. -/
def listURLs (L : Lib) : List String → Except Panic (List URL)
  | [] => .ok []
  | v :: rest =>
    match L.urlParse v with
    | .error _ => .error Panic.nilPointerDereference
    | .ok u =>
      match listURLs L rest with
      | .error p => .error p
      | .ok urls => .ok ({ u with Path := "/system/functions" } :: urls)

/-- Second loop of `ReadServices`, over the results of `Get`, with
`serviceResult` the map filled so far. A `break` leaves the loop and returns
the map as it stands. -/
def readResults (L : Lib) (providers : List String) :
    List GetResult → GoMap String (List (Option Function)) →
    Except Panic (Option ReadServicesResult × Option String)
  | [], serviceResult => .ok (some ⟨serviceResult⟩, none)
  | v :: rest, serviceResult =>
    match v.Err with
    | some _ =>
      match sliceIndex providers v.Index with
      | .error p => .error p
      | .ok _ => .ok (some ⟨serviceResult⟩, none)
    | none =>
      match v.Response with
      | none => .error Panic.nilPointerDereference
      | some resp =>
        if resp.StatusCode > 399 then
          match sliceIndex providers v.Index with
          | .error p => .error p
          | .ok _ => .ok (some ⟨serviceResult⟩, none)
        else
          match resp.Body with
          | .error err =>
            match sliceIndex providers v.Index with
            | .error p => .error p
            | .ok name => .ok (none, some ("error reading response for " ++ name ++ ". " ++ err))
          | .ok functionBytes =>
            match L.jsonUnmarshal functionBytes with
            | .error err =>
              match sliceIndex providers v.Index with
              | .error p => .error p
              | .ok name =>
                .ok (none, some ("error unmarshalling response for " ++ name ++ ". " ++ err))
            | .ok function =>
              match sliceIndex providers v.Index with
              | .error p => .error p
              | .ok name =>
                readResults L providers rest
                  (serviceResult.set name ((serviceResult.get? name).getD [] ++ function))

/-- Embeds `ReadServices`. `Get` is the concurrent fetch, declared outside the
files at hand: it maps the URLs and their number to the list of results. -/
def ReadServices (L : Lib) (Get : List URL → Nat → List GetResult) (providers : List String) :
    Except Panic (Option ReadServicesResult × Option String) :=
  match listURLs L providers with
  | .error p => .error p
  | .ok urls => readResults L providers (Get urls providers.length) []

/-- Embeds `createToRequest`; the fields it does not set have Go's zero
value. -/
def createToRequest (request : CreateFunctionRequest) : Function :=
  { Name := request.Service
    Annotations := request.Annotations
    EnvProcess := request.EnvProcess
    Image := request.Image
    Labels := request.Labels
    AvailableReplicas := 1
    Replicas := 1
    InvocationCount := 0 }

/-- Embeds `requestToCreate`; the fields it does not set have Go's zero
value. -/
def requestToCreate (f : Function) : CreateFunctionRequest :=
  { Service := f.Name
    Annotations := f.Annotations
    Labels := f.Labels
    Image := f.Image
    EnvProcess := f.EnvProcess
    Network := ""
    EnvVars := []
    Constraints := []
    Secrets := []
    Limits := none
    Requests := none
    ReadOnlyRootFilesystem := false }

/-! ## Registry listing and calls of the interface -/

/-- Loop of `GetFunctions` over the entries of the registry in the order they
are visited: `result = append(result, v)`. -/
def appendValues :
    List (String × CreateFunctionRequest) → List CreateFunctionRequest →
    List CreateFunctionRequest
  | [], result => result
  | (_, v) :: rest, result => appendValues rest (result ++ [v])

/-- Embeds `GetFunctions`, with `order` the entries of `d.cache` in the order
in which the loop visits them; `result` starts as the nil slice. -/
def GetFunctions (order : List (String × CreateFunctionRequest)) : List CreateFunctionRequest :=
  appendValues order []

/-- Calls of the interface `ProviderLookup`. -/
inductive Call where
  | Resolve (functionName : String)
  | AddFunction (f : CreateFunctionRequest)
  | GetFunction (name : String)
  | GetFunctions
  deriving DecidableEq, Repr

/-- Receiver after a call. `AddFunction` assigns to an entry of `d.cache`; the
bodies of `Resolve`, `GetFunction` and `GetFunctions` (and of
`matchBasedOnName`, which `Resolve` calls) hold no assignment to a field of
the receiver or to what a field points to, and release the lock they take. -/
def Call.after (d : defaultProviderRouting) : Call → defaultProviderRouting
  | .AddFunction f => FaasFederation.AddFunction d f
  | .Resolve _ => d
  | .GetFunction _ => d
  | .GetFunctions => d

/-! ## Results of the fetches -/

/-- Last statement of the loop of `ReadServices`:
`m[name] = append(m[name], function...)`. -/
def appendFunctions (m : GoMap String (List (Option Function))) (name : String)
    (function : List (Option Function)) : GoMap String (List (Option Function)) :=
  m.set name ((m.get? name).getD [] ++ function)

/-- The result was tagged with the index of one of the providers. -/
def GetResult.InRange (providers : List String) (r : GetResult) : Prop :=
  0 ≤ r.Index ∧ r.Index < providers.length

/-- Provider a result was tagged with, `providers[r.Index]` for an index in
range. -/
def GetResult.provider (providers : List String) (r : GetResult) : String :=
  providers.getD r.Index.toNat ""

/-- The result is a success that decodes: no transport error, a response
with a status below 400, a body that is read in full and that
`json.Unmarshal` decodes to `function`. -/
def GetResult.DecodesTo (L : Lib) (r : GetResult) (function : List (Option Function)) : Prop :=
  r.Err = none ∧ ∃ resp body, r.Response = some resp ∧ ¬ resp.StatusCode > 399
    ∧ resp.Body = .ok body ∧ L.jsonUnmarshal body = .ok function

/-- Function list a result decodes to; the empty list when the result has no
response, no body or a body that does not decode. -/
def GetResult.functions (L : Lib) (r : GetResult) : List (Option Function) :=
  match r.Response with
  | none => []
  | some resp =>
    match resp.Body with
    | .error _ => []
    | .ok body =>
      match L.jsonUnmarshal body with
      | .error _ => []
      | .ok function => function

/-- The result is a success that decodes, to `r.functions L`. -/
def GetResult.Succeeds (L : Lib) (r : GetResult) : Prop :=
  r.DecodesTo L (r.functions L)

/-- The result is a failure of its provider: a transport error, or a response
with a status above 399. -/
def GetResult.Fails (r : GetResult) : Prop :=
  r.Err ≠ none ∨ ∃ resp, r.Response = some resp ∧ resp.StatusCode > 399

/-- Map that the loop of `ReadServices` builds from results that all succeed,
starting from the empty map. -/
def mergeResults (L : Lib) (providers : List String) (results : List GetResult) :
    GoMap String (List (Option Function)) :=
  results.foldl (fun m r => appendFunctions m (r.provider providers) (r.functions L)) []

/-! ## A concrete standard library for the examples -/

/-- Case-insensitive equality of two ASCII strings, the first loop of
`strings.EqualFold`: two bytes agree when they are equal or when the smaller
one is an upper-case letter and the larger one is its lower-case form. It is
the value of `strings.EqualFold` when both strings are ASCII. -/
def equalFoldASCII : List Char → List Char → Bool
  | [], [] => true
  | sr :: s, tr :: t =>
    if sr = tr then equalFoldASCII s t
    else if 65 ≤ min sr.toNat tr.toNat ∧ min sr.toNat tr.toNat ≤ 90
        ∧ max sr.toNat tr.toNat = min sr.toNat tr.toNat + 32 then equalFoldASCII s t
    else false
  | _, _ => false

/-- Splits `scheme://rest` at the first `://`. -/
def splitScheme : List Char → List Char → Option (List Char × List Char)
  | [], _ => none
  | c :: cs, acc =>
    match c, cs with
    | ':', '/' :: '/' :: rest => some (acc.reverse, rest)
    | _, _ => splitScheme cs (c :: acc)

/-- Characters accepted in the hostname and the path of `simpleParse`. -/
def isPlainChar (c : Char) : Bool :=
  c.isAlphanum || c = '.' || c = '-'

/-- Port accepted by `simpleParse`: nothing, or a colon and digits. -/
def isOptionalPort : List Char → Bool
  | [] => true
  | c :: ds => c = ':' && ds.all Char.isDigit

/-- Reads `scheme://hostname[:port][/path]` as `url.Parse` does, for a scheme
of lower-case letters, a hostname and a path of letters, digits, `.` and `-`
(and `/` in the path) and a port of digits: the host of the URL is
`hostname[:port]` as written, letter case included. Any other string is
answered with an error, which `url.Parse` does not always do: the examples use
strings of this form, and strings with a blank in the host, which `url.Parse`
rejects as well. -/
def simpleParse (s : String) : Except String URL :=
  match splitScheme s.data [] with
  | none => .error "missing protocol scheme"
  | some (scheme, rest) =>
    if scheme ≠ [] ∧ scheme.all Char.isLower
        ∧ ((rest.takeWhile (fun c => c ≠ '/')).takeWhile (fun c => c ≠ ':')).all isPlainChar
        ∧ isOptionalPort ((rest.takeWhile (fun c => c ≠ '/')).dropWhile (fun c => c ≠ ':'))
        ∧ (rest.dropWhile (fun c => c ≠ '/')).all (fun c => isPlainChar c || c = '/') then
      .ok { Scheme := String.mk scheme
            Host := String.mk (rest.takeWhile (fun c => c ≠ '/'))
            Path := String.mk (rest.dropWhile (fun c => c ≠ '/'))
            RawQuery := ""
            Fragment := "" }
    else .error "invalid character in host name"

/-- Function summary with the given name and zero values elsewhere, as
`json.Unmarshal` fills it from an object that has the key `name` only. -/
def namedFunction (name : String) : Function :=
  { Name := name, Image := "", InvocationCount := 0, Replicas := 0, EnvProcess := "",
    AvailableReplicas := 0, Labels := none, Annotations := none }

/-- Decodes the response bodies of the examples as `json.Unmarshal` does: the
empty list, `null`, and the lists of one object with the name `f1` or `f2`.
Any other body is answered with an error; the examples use `not json` for a
body that does not decode. -/
def simpleUnmarshal (body : String) : Except String (List (Option Function)) :=
  if body = "[]" ∨ body = "null" then .ok []
  else if body = "[\x7b\"name\":\"f1\"\x7d]" then .ok [some (namedFunction "f1")]
  else if body = "[\x7b\"name\":\"f2\"\x7d]" then .ok [some (namedFunction "f2")]
  else .error "invalid character"

/-- Concrete standard library on which the examples are evaluated: it agrees
with Go on ASCII strings for `EqualFold`, and on the URLs and bodies described
at `simpleParse` and `simpleUnmarshal`. -/
def goLib : Lib :=
  { urlParse := simpleParse
    EqualFold := fun s t => equalFoldASCII s.data t.data
    jsonUnmarshal := simpleUnmarshal }

/-! ## Data of the examples -/

/-- URL `http://host`, with the host and port `host`, as `url.Parse` returns
it. -/
def httpURL (host : String) : URL :=
  { Scheme := "http", Host := host, Path := "", RawQuery := "", Fragment := "" }

/-- Descriptor of the function `echo` with the given annotations pointer and
zero values elsewhere. -/
def echo (annotations : Option (GoMap String String)) : CreateFunctionRequest :=
  { Service := "echo", Image := "", Network := "", EnvProcess := "", EnvVars := [],
    Constraints := [], Secrets := [], Labels := none, Annotations := annotations,
    Limits := none, Requests := none, ReadOnlyRootFilesystem := false }

/-- Descriptor of `echo` whose affinity annotation has the value `v`. -/
def echoWithAffinity (v : String) : CreateFunctionRequest :=
  echo (some [(federationProviderNameConstraint, v)])

/-- Routing state built from the given directory entries, with an empty
registry and the default provider `http://p1:8080`. -/
def routingOf (providers : GoMap String URL) : defaultProviderRouting :=
  { cache := [], providers := providers, defaultProvider := httpURL "p1:8080" }

/-- Directory of the providers `http://p1:8080` and `http://p2:8080`. -/
def directoryP1P2 : GoMap String URL :=
  [("p1", httpURL "p1:8080"), ("p2", httpURL "p2:8080")]

/-- Directory of the providers `http://p1:8080` and `http://P1:8080`, whose
hostnames differ in letter case only. -/
def directoryP1Upper : GoMap String URL :=
  [("p1", httpURL "p1:8080"), ("P1", httpURL "P1:8080")]

/-- Result of a fetch for the provider of index `i` that failed in
transport: no response, and an error. -/
def failedFetch (i : Int) : GetResult :=
  { Index := i, Response := none, Err := some "connection refused" }

/-- Result of a fetch for the provider of index `i` that was answered with the
status `code` and the body `body`. -/
def answeredFetch (i : Int) (code : Int) (body : String) : GetResult :=
  { Index := i, Response := some { StatusCode := code, Body := .ok body }, Err := none }

/-- Provider strings of the examples. -/
def providersP1P2 : List String := ["http://p1:8080", "http://p2:8080"]

/-- URLs of the function lists of `providersP1P2`, as the first loop of
`ReadServices` builds them. -/
def urlsP1P2 : List URL :=
  [{ httpURL "p1:8080" with Path := "/system/functions" },
   { httpURL "p2:8080" with Path := "/system/functions" }]

/-- Body listing the one function `f1`. -/
def bodyF1 : String := "[\x7b\"name\":\"f1\"\x7d]"

/-- Body listing the one function `f2`. -/
def bodyF2 : String := "[\x7b\"name\":\"f2\"\x7d]"

/-- Go `URL.Hostname`, the host without the port and without the brackets of
an IPv6 literal, as `stripPort` computes it from `Host`: the whole of `Host`
when it holds no colon; else, when `Host` holds a `]`, the text before its
first `]` less a leading `[`; else the text before the first colon. -/
def Hostname (v : URL) : String :=
  if ':' ∉ v.Host.data then v.Host
  else if ']' ∈ v.Host.data then
    match v.Host.data.takeWhile (fun c => decide (c ≠ ']')) with
    | '[' :: rest => String.mk rest
    | cs => String.mk cs
  else String.mk (v.Host.data.takeWhile (fun c => decide (c ≠ ':')))

/-- Standard library of the examples that also parses the provider URL
`http://[::1]:8080`, whose host is an IPv6 literal: `url.Parse` accepts it
and keeps the brackets and the port in `Host`. -/
def goLibIPv6 : Lib :=
  { goLib with
    urlParse := fun s =>
      if s = "http://[::1]:8080" then .ok (httpURL "[::1]:8080") else goLib.urlParse s }

end FaasFederation


namespace FaasFederation

/-! ## Go maps: reads after writes -/

theorem GoMap.get?_set_self {κ ν : Type} [DecidableEq κ] (m : GoMap κ ν) (k : κ) (v : ν) :
    (m.set k v).get? k = some v := by
  induction m with
  | nil => simp [GoMap.set, GoMap.get?]
  | cons e rest ih =>
    obtain ⟨k', v'⟩ := e
    by_cases h : k' = k
    · simp [GoMap.set, GoMap.get?, h]
    · simp [GoMap.set, GoMap.get?, h, ih]

theorem GoMap.get?_set_of_ne {κ ν : Type} [DecidableEq κ] (m : GoMap κ ν) (k k' : κ) (v : ν)
    (hne : k ≠ k') : (m.set k v).get? k' = m.get? k' := by
  induction m with
  | nil => simp [GoMap.set, GoMap.get?, hne]
  | cons e rest ih =>
    obtain ⟨k₀, v₀⟩ := e
    by_cases h : k₀ = k
    · subst h
      simp [GoMap.set, GoMap.get?, hne]
    · by_cases h' : k₀ = k'
      · subst h'
        simp [GoMap.set, GoMap.get?, h]
      · simp [GoMap.set, GoMap.get?, h, h', ih]

theorem GoMap.get?_eq_none_iff {κ ν : Type} [DecidableEq κ] (m : GoMap κ ν) (k : κ) :
    m.get? k = none ↔ k ∉ m.keys := by
  induction m with
  | nil => simp [GoMap.get?, GoMap.keys]
  | cons e rest ih =>
    obtain ⟨k', v'⟩ := e
    by_cases h : k' = k
    · simp [GoMap.get?, GoMap.keys, h]
    · have h' : ¬ k = k' := fun hk => h hk.symm
      simp only [GoMap.keys] at ih
      simp [GoMap.get?, GoMap.keys, h, h', ih]

theorem GoMap.mem_of_get?_eq_some {κ ν : Type} [DecidableEq κ] (m : GoMap κ ν) (k : κ) (v : ν)
    (h : m.get? k = some v) : (k, v) ∈ m := by
  induction m with
  | nil => simp [GoMap.get?] at h
  | cons e rest ih =>
    obtain ⟨k', v'⟩ := e
    by_cases hk : k' = k
    · simp [GoMap.get?, hk] at h
      simp [hk, h]
    · simp [GoMap.get?, hk] at h
      exact List.mem_cons_of_mem _ (ih h)

theorem GoMap.mem_set {κ ν : Type} [DecidableEq κ] (m : GoMap κ ν) (k : κ) (v : ν)
    (e : κ × ν) (h : e ∈ m.set k v) : e = (k, v) ∨ e ∈ m := by
  induction m with
  | nil => simpa [GoMap.set] using h
  | cons e' rest ih =>
    obtain ⟨k', v'⟩ := e'
    by_cases hk : k' = k
    · simp [GoMap.set, hk] at h
      rcases h with h | h
      · exact Or.inl h
      · exact Or.inr (List.mem_cons_of_mem _ h)
    · simp only [GoMap.set, hk, if_false, List.mem_cons] at h
      rcases h with h | h
      · exact Or.inr (by simp [h])
      · rcases ih h with h' | h'
        · exact Or.inl h'
        · exact Or.inr (List.mem_cons_of_mem _ h')

theorem GoMap.keys_subset_set {κ ν : Type} [DecidableEq κ] (m : GoMap κ ν) (k : κ) (v : ν)
    (k' : κ) (h : k' ∈ m.keys) : k' ∈ (m.set k v).keys := by
  induction m with
  | nil => simp [GoMap.keys] at h
  | cons e rest ih =>
    obtain ⟨k₀, v₀⟩ := e
    simp only [GoMap.keys, List.map_cons, List.mem_cons] at h
    by_cases hk : k₀ = k
    · subst hk
      simp only [GoMap.set, if_true, GoMap.keys, List.map_cons, List.mem_cons]
      exact h
    · simp only [GoMap.set, hk, if_false, GoMap.keys, List.map_cons, List.mem_cons]
      rcases h with h | h
      · exact Or.inl h
      · exact Or.inr (ih h)

theorem GoMap.key_mem_set {κ ν : Type} [DecidableEq κ] (m : GoMap κ ν) (k : κ) (v : ν) :
    k ∈ (m.set k v).keys := by
  have h := GoMap.get?_set_self m k v
  by_contra hc
  rw [(GoMap.get?_eq_none_iff _ _).mpr hc] at h
  cases h

theorem GoMap.keys_of_set {κ ν : Type} [DecidableEq κ] (m : GoMap κ ν) (k : κ) (v : ν)
    (k' : κ) (h : k' ∈ (m.set k v).keys) : k' = k ∨ k' ∈ m.keys := by
  simp only [GoMap.keys, List.mem_map] at h ⊢
  obtain ⟨e, he, hk⟩ := h
  rcases GoMap.mem_set m k v e he with h' | h'
  · left
    rw [← hk, h']
  · exact Or.inr ⟨e, h', hk⟩

theorem GoMap.nodup_keys_set {κ ν : Type} [DecidableEq κ] (m : GoMap κ ν) (k : κ) (v : ν)
    (h : m.keys.Nodup) : (m.set k v).keys.Nodup := by
  induction m with
  | nil => simp [GoMap.set, GoMap.keys]
  | cons e rest ih =>
    obtain ⟨k₀, v₀⟩ := e
    simp only [GoMap.keys, List.map_cons, List.nodup_cons] at h
    by_cases hk : k₀ = k
    · subst hk
      simp only [GoMap.set, if_true, GoMap.keys, List.map_cons, List.nodup_cons]
      exact h
    · simp only [GoMap.set, hk, if_false, GoMap.keys, List.map_cons, List.nodup_cons]
      refine ⟨?_, ih h.2⟩
      intro hmem
      rcases GoMap.keys_of_set rest k v k₀ hmem with h' | h'
      · exact hk h'
      · exact h.1 h'

/-! ## Registry and resolver: auxiliary facts -/

theorem foldl_AddFunction_providers (fs : List CreateFunctionRequest)
    (d : defaultProviderRouting) :
    (fs.foldl AddFunction d).providers = d.providers
      ∧ (fs.foldl AddFunction d).defaultProvider = d.defaultProvider := by
  induction fs generalizing d with
  | nil => exact ⟨rfl, rfl⟩
  | cons f rest ih =>
    simp only [List.foldl_cons]
    exact ih (AddFunction d f)

theorem foldl_AddFunction_get?_of_not_mem (fs : List CreateFunctionRequest)
    (d : defaultProviderRouting) (n : String) (h : ∀ f ∈ fs, f.Service ≠ n) :
    (fs.foldl AddFunction d).cache.get? n = d.cache.get? n := by
  induction fs generalizing d with
  | nil => rfl
  | cons f rest ih =>
    simp only [List.foldl_cons]
    rw [ih (AddFunction d f) (fun g hg => h g (List.mem_cons_of_mem _ hg))]
    exact GoMap.get?_set_of_ne d.cache f.Service n f (h f (List.mem_cons_self _ _))

theorem matchBasedOnName_eq_none (L : Lib) (order : List (String × URL)) (v : String)
    (h : ∀ e ∈ order, L.EqualFold (getHostNameWithoutPorts e.2) v = false) :
    matchBasedOnName L order v = none := by
  induction order with
  | nil => rfl
  | cons e rest ih =>
    obtain ⟨k, u⟩ := e
    have hu : L.EqualFold (getHostNameWithoutPorts u) v = false := h (k, u) (List.mem_cons_self _ _)
    simp only [matchBasedOnName, hu]
    exact ih (fun e he => h e (List.mem_cons_of_mem _ he))

theorem matchBasedOnName_eq_some (L : Lib) (order : List (String × URL)) (v : String) (u : URL)
    (hex : ∃ e ∈ order, L.EqualFold (getHostNameWithoutPorts e.2) v = true)
    (hall : ∀ e ∈ order, L.EqualFold (getHostNameWithoutPorts e.2) v = true → e.2 = u) :
    matchBasedOnName L order v = some u := by
  induction order with
  | nil =>
    obtain ⟨e, he, _⟩ := hex
    cases he
  | cons e rest ih =>
    obtain ⟨k, u'⟩ := e
    by_cases hm : L.EqualFold (getHostNameWithoutPorts u') v = true
    · have hEq : u' = u := hall (k, u') (List.mem_cons_self _ _) hm
      subst hEq
      simp [matchBasedOnName, hm]
    · have hm' : L.EqualFold (getHostNameWithoutPorts u') v = false := by
        simpa using hm
      simp only [matchBasedOnName, hm']
      apply ih
      · obtain ⟨e, he, hme⟩ := hex
        rcases List.mem_cons.mp he with h1 | h1
        · subst h1
          exact absurd hme hm
        · exact ⟨e, h1, hme⟩
      · exact fun e he => hall e (List.mem_cons_of_mem _ he)

theorem Resolve_of_affinity (L : Lib) (d : defaultProviderRouting) (order : List (String × URL))
    (n : String) (f : CreateFunctionRequest) (a : GoMap String String) (v : String)
    (hf : d.cache.get? n = some f) (ha : f.Annotations = some a)
    (hv : a.get? federationProviderNameConstraint = some v) :
    Resolve L d order n
      = .ok (some ((matchBasedOnName L order v).getD d.defaultProvider), none) := by
  simp only [Resolve, GetFunction, hf, ha, hv, Option.isSome_some]
  cases matchBasedOnName L order v <;> rfl

/-! ## Claims on the resolver and the registry -/

/-- C1: for every routing state and every name that is not a key of the
function registry, `Resolve` returns the error and no URL (nil), whatever the
provider directory, the default provider and the visiting order are. -/
theorem Resolve_unknown_function (L : Lib) (d : defaultProviderRouting)
    (order : List (String × URL)) (n : String) (h : n ∉ d.cache.keys) :
    Resolve L d order n
      = .ok (none, some ("can not find function " ++ n ++ " in cache map")) := by
  have hnone : d.cache.get? n = none := (GoMap.get?_eq_none_iff _ _).mpr h
  simp [Resolve, GetFunction, hnone]

theorem Resolve_never_added (L : Lib) (d0 : defaultProviderRouting)
    (fs : List CreateFunctionRequest) (order : List (String × URL)) (n : String)
    (h0 : d0.cache = []) (h : ∀ f ∈ fs, f.Service ≠ n) :
    Resolve L (fs.foldl AddFunction d0) order n
      = .ok (none, some ("can not find function " ++ n ++ " in cache map")) := by
  have hnone : (fs.foldl AddFunction d0).cache.get? n = none := by
    rw [foldl_AddFunction_get?_of_not_mem fs d0 n h, h0]
    rfl
  simp [Resolve, GetFunction, hnone]

/-- C3: for a registered function whose annotations map exists and does not
hold the affinity key, `Resolve` returns the default provider and no error,
whatever the provider directory holds and in whatever order it is visited. -/
theorem Resolve_without_affinity (L : Lib) (d : defaultProviderRouting)
    (order : List (String × URL)) (n : String) (f : CreateFunctionRequest)
    (a : GoMap String String) (hf : GetFunction d n = (some f, true))
    (ha : f.Annotations = some a) (hkey : federationProviderNameConstraint ∉ a.keys) :
    Resolve L d order n = .ok (some d.defaultProvider, none) := by
  have hnone : a.get? federationProviderNameConstraint = none :=
    (GoMap.get?_eq_none_iff _ _).mpr hkey
  simp [Resolve, hf, ha, hnone]

/-- C5: for a registered function whose affinity value equals, ignoring case,
the port-stripped hostname of no provider of the directory, `Resolve` returns
the default provider and no error, for every order in which the directory is
visited. -/
theorem Resolve_unmatched_affinity (L : Lib) (d : defaultProviderRouting)
    (order : List (String × URL)) (n : String) (f : CreateFunctionRequest)
    (a : GoMap String String) (v : String) (horder : d.providers.IterOrder order)
    (hf : GetFunction d n = (some f, true)) (ha : f.Annotations = some a)
    (hv : a.get? federationProviderNameConstraint = some v)
    (hno : ∀ e ∈ d.providers, L.EqualFold (getHostNameWithoutPorts e.2) v = false) :
    Resolve L d order n = .ok (some d.defaultProvider, none) := by
  have hf' : d.cache.get? n = some f := congrArg Prod.fst hf
  rw [Resolve_of_affinity L d order n f a v hf' ha hv,
    matchBasedOnName_eq_none L order v (fun e he => hno e ((List.Perm.mem_iff horder).mp he))]
  rfl

/-- C6: after `AddFunction(d)`, `GetFunction(d.Service)` returns `(d, true)`,
whatever the registry held under that name before. -/
theorem GetFunction_AddFunction (d : defaultProviderRouting) (f : CreateFunctionRequest) :
    GetFunction (AddFunction d f) f.Service = (some f, true) := by
  simp [GetFunction, AddFunction, GoMap.get?_set_self]

/-- C10: both conversions are functions without an error result, and each
round trip keeps the name, the image, the environment process, the
annotations and the labels. -/
theorem conversions_round_trip :
    (∀ r : CreateFunctionRequest,
      (requestToCreate (createToRequest r)).Service = r.Service
      ∧ (requestToCreate (createToRequest r)).Image = r.Image
      ∧ (requestToCreate (createToRequest r)).EnvProcess = r.EnvProcess
      ∧ (requestToCreate (createToRequest r)).Annotations = r.Annotations
      ∧ (requestToCreate (createToRequest r)).Labels = r.Labels)
    ∧ (∀ f : Function,
      (createToRequest (requestToCreate f)).Name = f.Name
      ∧ (createToRequest (requestToCreate f)).Image = f.Image
      ∧ (createToRequest (requestToCreate f)).EnvProcess = f.EnvProcess
      ∧ (createToRequest (requestToCreate f)).Annotations = f.Annotations
      ∧ (createToRequest (requestToCreate f)).Labels = f.Labels) :=
  ⟨fun _ => ⟨rfl, rfl, rfl, rfl, rfl⟩, fun _ => ⟨rfl, rfl, rfl, rfl, rfl⟩⟩

/-! ## The provider directory built by the constructor -/

theorem buildProviderMap_spec (L : Lib) (ps : List String) (acc m : GoMap String URL)
    (h : buildProviderMap L ps acc = .ok m) :
    (∀ e ∈ m, e ∈ acc
        ∨ (e.1 = getHostNameWithoutPorts e.2 ∧ ∃ q ∈ ps, L.urlParse q = .ok e.2))
      ∧ (∀ k ∈ acc.keys, k ∈ m.keys)
      ∧ (∀ q ∈ ps, ∀ uq, L.urlParse q = .ok uq → getHostNameWithoutPorts uq ∈ m.keys)
      ∧ (acc.keys.Nodup → m.keys.Nodup) := by
  induction ps generalizing acc with
  | nil =>
    simp only [buildProviderMap, Except.ok.injEq] at h
    subst h
    exact ⟨fun e he => Or.inl he, fun k hk => hk, fun q hq => absurd hq (List.not_mem_nil q),
      fun hn => hn⟩
  | cons v rest ih =>
    cases hparse : L.urlParse v with
    | error err => simp [buildProviderMap, hparse] at h
    | ok pURL =>
      simp only [buildProviderMap, hparse] at h
      obtain ⟨h1, h2, h3, h4⟩ := ih _ h
      refine ⟨?_, ?_, ?_, ?_⟩
      · intro e he
        rcases h1 e he with hacc | ⟨hkey, q, hq, hqe⟩
        · rcases GoMap.mem_set acc _ _ e hacc with hnew | hold
          · right
            subst hnew
            exact ⟨rfl, v, List.mem_cons_self _ _, hparse⟩
          · exact Or.inl hold
        · exact Or.inr ⟨hkey, q, List.mem_cons_of_mem _ hq, hqe⟩
      · intro k hk
        exact h2 k (GoMap.keys_subset_set acc _ _ k hk)
      · intro q hq uq hquq
        rcases List.mem_cons.mp hq with hqv | hqr
        · subst hqv
          rw [hparse] at hquq
          cases hquq
          exact h2 _ (GoMap.key_mem_set acc _ _)
        · exact h3 q hqr uq hquq
      · intro hn
        exact h4 (GoMap.nodup_keys_set acc _ _ hn)

theorem NewDefaultProviderRouting_providers (L : Lib) (providers : List String)
    (defaultProvider : String) (d0 : defaultProviderRouting)
    (h : NewDefaultProviderRouting L providers defaultProvider = (some d0, none)) :
    buildProviderMap L providers [] = .ok d0.providers := by
  unfold NewDefaultProviderRouting at h
  cases hb : buildProviderMap L providers [] with
  | error msg => simp [hb] at h
  | ok providerMap =>
    cases hd : L.urlParse defaultProvider with
    | error err => simp [hb, hd] at h
    | ok u =>
      simp only [hb, hd, Prod.mk.injEq, Option.some.injEq, and_true] at h
      rw [← h]

theorem GoMap.eq_of_mem_of_key_eq {κ ν : Type} (m : GoMap κ ν) (hn : m.keys.Nodup)
    (e₁ e₂ : κ × ν) (h₁ : e₁ ∈ m) (h₂ : e₂ ∈ m) (hk : e₁.1 = e₂.1) : e₁ = e₂ :=
  List.inj_on_of_nodup_map hn h₁ h₂ hk

theorem matchBasedOnName_order_independent (L : Lib) (m : GoMap String URL)
    (o₁ o₂ : List (String × URL)) (v : String) (h₁ : m.IterOrder o₁) (h₂ : m.IterOrder o₂)
    (huniq : ∀ e₁ ∈ m, ∀ e₂ ∈ m, L.EqualFold (getHostNameWithoutPorts e₁.2) v = true →
      L.EqualFold (getHostNameWithoutPorts e₂.2) v = true → e₁.2 = e₂.2) :
    matchBasedOnName L o₁ v = matchBasedOnName L o₂ v := by
  by_cases hex : ∃ e ∈ m, L.EqualFold (getHostNameWithoutPorts e.2) v = true
  · obtain ⟨e, he, hm⟩ := hex
    rw [matchBasedOnName_eq_some L o₁ v e.2 ⟨e, (List.Perm.mem_iff h₁).mpr he, hm⟩
        (fun e' he' hm' => huniq e' ((List.Perm.mem_iff h₁).mp he') e he hm' hm),
      matchBasedOnName_eq_some L o₂ v e.2 ⟨e, (List.Perm.mem_iff h₂).mpr he, hm⟩
        (fun e' he' hm' => huniq e' ((List.Perm.mem_iff h₂).mp he') e he hm' hm)]
  · have hno : ∀ e ∈ m, L.EqualFold (getHostNameWithoutPorts e.2) v = false := by
      intro e he
      cases hm : L.EqualFold (getHostNameWithoutPorts e.2) v with
      | false => rfl
      | true => exact absurd ⟨e, he, hm⟩ hex
    rw [matchBasedOnName_eq_none L o₁ v (fun e he => hno e ((List.Perm.mem_iff h₁).mp he)),
      matchBasedOnName_eq_none L o₂ v (fun e he => hno e ((List.Perm.mem_iff h₂).mp he))]

theorem Resolve_order_independent (L : Lib) (d : defaultProviderRouting)
    (o₁ o₂ : List (String × URL)) (n : String)
    (h₁ : d.providers.IterOrder o₁) (h₂ : d.providers.IterOrder o₂)
    (huniq : ∀ f a v, GetFunction d n = (some f, true) → f.Annotations = some a →
      a.get? federationProviderNameConstraint = some v →
      ∀ e₁ ∈ d.providers, ∀ e₂ ∈ d.providers,
        L.EqualFold (getHostNameWithoutPorts e₁.2) v = true →
        L.EqualFold (getHostNameWithoutPorts e₂.2) v = true → e₁.2 = e₂.2) :
    Resolve L d o₁ n = Resolve L d o₂ n := by
  cases hf : d.cache.get? n with
  | none => simp [Resolve, GetFunction, hf]
  | some f =>
    cases ha : f.Annotations with
    | none => simp [Resolve, GetFunction, hf, ha]
    | some a =>
      cases hv : a.get? federationProviderNameConstraint with
      | none => simp [Resolve, GetFunction, hf, ha, hv]
      | some v =>
        have hG : GetFunction d n = (some f, true) := by simp [GetFunction, hf]
        rw [Resolve_of_affinity L d o₁ n f a v hf ha hv,
          Resolve_of_affinity L d o₂ n f a v hf ha hv,
          matchBasedOnName_order_independent L d.providers o₁ o₂ v h₁ h₂ (huniq f a v hG ha hv)]

/-! ## Claims on the affinity match -/

/-- C2, as amended: for every list of provider URLs given to
`NewDefaultProviderRouting`, every provider `p` of the list and every
registered function whose affinity value `v` equals the port-stripped hostname
of `p` ignoring case, `Resolve` returns exactly the URL of `p` and no error,
for every visiting order of the directory, provided every provider of the list
whose port-stripped hostname equals `v` ignoring case has the URL of `p`. -/
theorem Resolve_matched_affinity (L : Lib) (providers : List String) (defaultProvider : String)
    (d0 : defaultProviderRouting) (fs : List CreateFunctionRequest)
    (order : List (String × URL)) (p : String) (u : URL) (n : String)
    (f : CreateFunctionRequest) (a : GoMap String String) (v : String)
    (hNew : NewDefaultProviderRouting L providers defaultProvider = (some d0, none))
    (hp : p ∈ providers) (hu : L.urlParse p = .ok u)
    (horder : (fs.foldl AddFunction d0).providers.IterOrder order)
    (hf : GetFunction (fs.foldl AddFunction d0) n = (some f, true))
    (ha : f.Annotations = some a)
    (hv : a.get? federationProviderNameConstraint = some v)
    (hmatch : L.EqualFold (getHostNameWithoutPorts u) v = true)
    (honly : ∀ q ∈ providers, ∀ uq, L.urlParse q = .ok uq →
      L.EqualFold (getHostNameWithoutPorts uq) v = true → uq = u) :
    Resolve L (fs.foldl AddFunction d0) order n = .ok (some u, none) := by
  have hf' : (fs.foldl AddFunction d0).cache.get? n = some f := congrArg Prod.fst hf
  have hprov : (fs.foldl AddFunction d0).providers = d0.providers :=
    (foldl_AddFunction_providers fs d0).1
  rw [hprov] at horder
  obtain ⟨h1, _, h3, _⟩ :=
    buildProviderMap_spec L providers [] d0.providers
      (NewDefaultProviderRouting_providers L providers defaultProvider d0 hNew)
  -- every entry of the directory that matches `v` holds the URL of `p`
  have hall : ∀ e ∈ d0.providers,
      L.EqualFold (getHostNameWithoutPorts e.2) v = true → e.2 = u := by
    intro e he hm
    rcases h1 e he with hnil | ⟨_, q, hq, hqe⟩
    · exact absurd hnil (List.not_mem_nil e)
    · exact honly q hq e.2 hqe hm
  -- the directory has an entry under the hostname of `p`, and it matches `v`
  have hkey : getHostNameWithoutPorts u ∈ d0.providers.keys := h3 p hp u hu
  obtain ⟨e, he, hek⟩ := List.mem_map.mp hkey
  have hek' : e.1 = getHostNameWithoutPorts e.2 := by
    rcases h1 e he with hnil | ⟨hk, _⟩
    · exact absurd hnil (List.not_mem_nil e)
    · exact hk
  have hme : L.EqualFold (getHostNameWithoutPorts e.2) v = true := by
    rw [← hek', hek]
    exact hmatch
  rw [Resolve_of_affinity L _ order n f a v hf' ha hv,
    matchBasedOnName_eq_some L order v u ⟨e, (List.Perm.mem_iff horder).mpr he, hme⟩
      (fun e' he' hm' => hall e' ((List.Perm.mem_iff horder).mp he') hm')]
  rfl

/-- C9, as amended: the directory built by `NewDefaultProviderRouting` holds
at most one provider per port-stripped hostname compared exactly, letter case
included; and for a registered function whose affinity value is matched,
ignoring case, by providers of the directory that all have the same URL,
`Resolve` returns the same result for every visiting order of the directory. -/
theorem directory_unique_hostnames (L : Lib) (providers : List String) (defaultProvider : String)
    (d0 : defaultProviderRouting)
    (hNew : NewDefaultProviderRouting L providers defaultProvider = (some d0, none)) :
    (∀ e₁ ∈ d0.providers, ∀ e₂ ∈ d0.providers,
        getHostNameWithoutPorts e₁.2 = getHostNameWithoutPorts e₂.2 → e₁ = e₂)
      ∧ ∀ (fs : List CreateFunctionRequest) (n : String) (o₁ o₂ : List (String × URL)),
          d0.providers.IterOrder o₁ → d0.providers.IterOrder o₂ →
          (∀ f a v, GetFunction (fs.foldl AddFunction d0) n = (some f, true) →
            f.Annotations = some a → a.get? federationProviderNameConstraint = some v →
            ∀ e₁ ∈ d0.providers, ∀ e₂ ∈ d0.providers,
              L.EqualFold (getHostNameWithoutPorts e₁.2) v = true →
              L.EqualFold (getHostNameWithoutPorts e₂.2) v = true → e₁.2 = e₂.2) →
          Resolve L (fs.foldl AddFunction d0) o₁ n = Resolve L (fs.foldl AddFunction d0) o₂ n := by
  obtain ⟨h1, _, _, h4⟩ :=
    buildProviderMap_spec L providers [] d0.providers
      (NewDefaultProviderRouting_providers L providers defaultProvider d0 hNew)
  have hkey : ∀ e ∈ d0.providers, e.1 = getHostNameWithoutPorts e.2 := by
    intro e he
    rcases h1 e he with hnil | ⟨hk, _⟩
    · exact absurd hnil (List.not_mem_nil e)
    · exact hk
  refine ⟨?_, ?_⟩
  · intro e₁ he₁ e₂ he₂ hhost
    apply GoMap.eq_of_mem_of_key_eq d0.providers (h4 List.nodup_nil) e₁ e₂ he₁ he₂
    rw [hkey e₁ he₁, hkey e₂ he₂, hhost]
  · intro fs n o₁ o₂ ho₁ ho₂ huniq
    have hprov : (fs.foldl AddFunction d0).providers = d0.providers :=
      (foldl_AddFunction_providers fs d0).1
    apply Resolve_order_independent L _ o₁ o₂ n
    · rw [hprov]
      exact ho₁
    · rw [hprov]
      exact ho₂
    · rw [hprov]
      exact huniq

/-! ## The claims on concrete inputs -/

theorem NewDefaultProviderRouting_p1_p2 :
    NewDefaultProviderRouting goLib ["http://p1:8080", "http://p2:8080"] "http://p1:8080"
      = (some (routingOf directoryP1P2), none) := by
  decide

/-- Witness of C1: nothing is registered under `missing`. -/
theorem Resolve_unknown_function_witness :
    Resolve goLib (AddFunction (routingOf directoryP1P2) (echoWithAffinity "p2"))
        directoryP1P2 "missing"
      = .ok (none, some "can not find function missing in cache map") :=
  Resolve_unknown_function goLib _ directoryP1P2 "missing" (by decide)

/-- Witness of C2, the example of the specification: with the providers
`http://p1:8080` and `http://p2:8080` and `echo` annotated with `p2`,
`Resolve("echo")` is `http://p2:8080`. -/
theorem Resolve_matched_affinity_witness :
    Resolve goLib ([echoWithAffinity "p2"].foldl AddFunction (routingOf directoryP1P2))
        directoryP1P2 "echo"
      = .ok (some (httpURL "p2:8080"), none) :=
  Resolve_matched_affinity goLib ["http://p1:8080", "http://p2:8080"] "http://p1:8080"
    (routingOf directoryP1P2) [echoWithAffinity "p2"] directoryP1P2 "http://p2:8080"
    (httpURL "p2:8080") "echo" (echoWithAffinity "p2")
    [(federationProviderNameConstraint, "p2")] "p2"
    NewDefaultProviderRouting_p1_p2 (by decide) (by decide) (List.Perm.refl _) (by decide) rfl
    (by decide) (by decide)
    (by
      intro q hq uq hparse hm
      simp only [List.mem_cons, List.mem_singleton, List.not_mem_nil, or_false] at hq
      rcases hq with hq | hq
      · subst hq
        have h8080 : goLib.urlParse "http://p1:8080" = .ok (httpURL "p1:8080") := by decide
        rw [h8080] at hparse
        cases hparse
        exact absurd hm (by decide)
      · subst hq
        have h8080 : goLib.urlParse "http://p2:8080" = .ok (httpURL "p2:8080") := by decide
        rw [h8080] at hparse
        cases hparse
        rfl)

/-- Counterexample to C2 as stated: with the providers `http://p1:8080` and
`http://p1:9090` the directory keeps the second one only, and a function
annotated with `p1`, the hostname of the first, resolves to
`http://p1:9090`. -/
theorem Resolve_matched_affinity_counterexample :
    NewDefaultProviderRouting goLib ["http://p1:8080", "http://p1:9090"] "http://p1:8080"
        = (some (routingOf [("p1", httpURL "p1:9090")]), none)
      ∧ "http://p1:8080" ∈ ["http://p1:8080", "http://p1:9090"]
      ∧ goLib.urlParse "http://p1:8080" = .ok (httpURL "p1:8080")
      ∧ goLib.EqualFold (getHostNameWithoutPorts (httpURL "p1:8080")) "p1" = true
      ∧ GetFunction (AddFunction (routingOf [("p1", httpURL "p1:9090")]) (echoWithAffinity "p1"))
          "echo" = (some (echoWithAffinity "p1"), true)
      ∧ Resolve goLib (AddFunction (routingOf [("p1", httpURL "p1:9090")]) (echoWithAffinity "p1"))
          [("p1", httpURL "p1:9090")] "echo" = .ok (some (httpURL "p1:9090"), none)
      ∧ httpURL "p1:9090" ≠ httpURL "p1:8080" := by
  decide

/-- Witness of C3: `echo` registered with an empty annotations map. -/
theorem Resolve_without_affinity_witness :
    Resolve goLib (AddFunction (routingOf directoryP1P2) (echo (some []))) directoryP1P2 "echo"
      = .ok (some (httpURL "p1:8080"), none) :=
  Resolve_without_affinity goLib (AddFunction (routingOf directoryP1P2) (echo (some [])))
    directoryP1P2 "echo" (echo (some [])) [] (by decide) rfl (by decide)

/-- C4, evaluated on the example of the specification: after `echo` is
registered with the affinity `p2` and then overwritten with a descriptor whose
annotations pointer is nil, `Resolve("echo")` does not return the default
provider: it dereferences the nil pointer. -/
theorem Resolve_nil_annotations :
    GetFunction (AddFunction (AddFunction (routingOf directoryP1P2) (echoWithAffinity "p2"))
        (echo none)) "echo" = (some (echo none), true)
      ∧ Resolve goLib
          (AddFunction (AddFunction (routingOf directoryP1P2) (echoWithAffinity "p2")) (echo none))
          directoryP1P2 "echo"
        = .error Panic.nilPointerDereference := by
  decide

/-- Witness of C5: `echo` annotated with `p3`, which names no provider. -/
theorem Resolve_unmatched_affinity_witness :
    Resolve goLib (AddFunction (routingOf directoryP1P2) (echoWithAffinity "p3"))
        directoryP1P2 "echo"
      = .ok (some (httpURL "p1:8080"), none) :=
  Resolve_unmatched_affinity goLib (AddFunction (routingOf directoryP1P2) (echoWithAffinity "p3"))
    directoryP1P2 "echo" (echoWithAffinity "p3") [(federationProviderNameConstraint, "p3")] "p3"
    (List.Perm.refl _) (by decide) rfl (by decide) (by decide)

/-- Counterexample to C9 as stated: the directory built from `http://p1:8080`
and `http://P1:8080` holds two providers whose port-stripped hostnames both
equal the affinity value `p1` ignoring case, and `Resolve` returns one or the
other according to the order in which the directory is visited. -/
theorem directory_unique_hostnames_counterexample :
    NewDefaultProviderRouting goLib ["http://p1:8080", "http://P1:8080"] "http://p1:8080"
        = (some (routingOf directoryP1Upper), none)
      ∧ goLib.EqualFold (getHostNameWithoutPorts (httpURL "p1:8080")) "p1" = true
      ∧ goLib.EqualFold (getHostNameWithoutPorts (httpURL "P1:8080")) "p1" = true
      ∧ directoryP1Upper.IterOrder [("P1", httpURL "P1:8080"), ("p1", httpURL "p1:8080")]
      ∧ Resolve goLib (AddFunction (routingOf directoryP1Upper) (echoWithAffinity "p1"))
          directoryP1Upper "echo" = .ok (some (httpURL "p1:8080"), none)
      ∧ Resolve goLib (AddFunction (routingOf directoryP1Upper) (echoWithAffinity "p1"))
          [("P1", httpURL "P1:8080"), ("p1", httpURL "p1:8080")] "echo"
        = .ok (some (httpURL "P1:8080"), none)
      ∧ httpURL "P1:8080" ≠ httpURL "p1:8080" :=
  ⟨by decide, by decide, by decide, List.Perm.swap _ _ _, by decide, by decide, by decide⟩

/-- Witness of C9 as amended: with the providers `http://p1:8080` and
`http://p2:8080` and `echo` annotated with `p2`, both visiting orders of the
directory give the same result. -/
theorem directory_unique_hostnames_witness :
    Resolve goLib ([echoWithAffinity "p2"].foldl AddFunction (routingOf directoryP1P2))
        directoryP1P2 "echo"
      = Resolve goLib ([echoWithAffinity "p2"].foldl AddFunction (routingOf directoryP1P2))
        [("p2", httpURL "p2:8080"), ("p1", httpURL "p1:8080")] "echo" :=
  (directory_unique_hostnames goLib ["http://p1:8080", "http://p2:8080"] "http://p1:8080"
    (routingOf directoryP1P2) NewDefaultProviderRouting_p1_p2).2
    [echoWithAffinity "p2"] "echo" directoryP1P2
    [("p2", httpURL "p2:8080"), ("p1", httpURL "p1:8080")]
    (List.Perm.refl _) (List.Perm.swap _ _ _)
    (by
      intro f a v hG ha hv
      have hG' : GetFunction ([echoWithAffinity "p2"].foldl AddFunction (routingOf directoryP1P2))
          "echo" = (some (echoWithAffinity "p2"), true) := by decide
      rw [hG'] at hG
      cases hG
      cases ha
      have hv' : GoMap.get? [(federationProviderNameConstraint, "p2")]
          federationProviderNameConstraint = some "p2" := by decide
      rw [hv'] at hv
      cases hv
      decide)

/-! ## Claims on the aggregation, on concrete inputs -/

/-- C7, evaluated on two providers of which the first fails: when the failed
result comes first, the merged result is empty and the functions of the
second provider are missing; when it comes last they are present. The same
holds when the failure is the status 500. -/
theorem ReadServices_failure_first :
    ReadServices goLib
        (fun _ _ => [failedFetch 0, answeredFetch 1 200 "[\x7b\"name\":\"f2\"\x7d]"])
        ["http://p1:8080", "http://p2:8080"]
      = .ok (some ⟨[]⟩, none)
    ∧ ReadServices goLib
        (fun _ _ => [answeredFetch 0 500 "", answeredFetch 1 200 "[\x7b\"name\":\"f2\"\x7d]"])
        ["http://p1:8080", "http://p2:8080"]
      = .ok (some ⟨[]⟩, none)
    ∧ ReadServices goLib
        (fun _ _ => [answeredFetch 1 200 "[\x7b\"name\":\"f2\"\x7d]", failedFetch 0])
        ["http://p1:8080", "http://p2:8080"]
      = .ok (some ⟨[("http://p2:8080", [some (namedFunction "f2")])]⟩, none) := by
  decide

/-- C8, evaluated on two providers of which the first fails in transport and
the second answers with the status 200 and a body that does not decode: when
the failed result comes first, `ReadServices` returns a result and no error;
when it comes last, the error of the decoding is returned. -/
theorem ReadServices_undecodable_after_failure :
    goLib.jsonUnmarshal "not json" = .error "invalid character"
    ∧ ReadServices goLib (fun _ _ => [failedFetch 0, answeredFetch 1 200 "not json"])
        ["http://p1:8080", "http://p2:8080"]
      = .ok (some ⟨[]⟩, none)
    ∧ ReadServices goLib (fun _ _ => [answeredFetch 1 200 "not json", failedFetch 0])
        ["http://p1:8080", "http://p2:8080"]
      = .ok (none,
          some "error unmarshalling response for http://p2:8080. invalid character") := by
  decide

/-! ## The registry: listing and frame -/

theorem GoMap.get?_of_mem {κ ν : Type} [DecidableEq κ] (m : GoMap κ ν) (hn : m.keys.Nodup)
    (k : κ) (v : ν) (h : (k, v) ∈ m) : m.get? k = some v := by
  cases hg : m.get? k with
  | none =>
    have hk : k ∉ m.keys := (GoMap.get?_eq_none_iff m k).mp hg
    exact absurd (List.mem_map.mpr ⟨(k, v), h, rfl⟩) hk
  | some w =>
    have hw : (k, w) ∈ m := GoMap.mem_of_get?_eq_some m k w hg
    have heq : (k, w) = (k, v) := GoMap.eq_of_mem_of_key_eq m hn (k, w) (k, v) hw h rfl
    rw [(Prod.mk.inj heq).2]

theorem appendValues_eq (order : List (String × CreateFunctionRequest))
    (result : List CreateFunctionRequest) :
    appendValues order result = result ++ order.map Prod.snd := by
  induction order generalizing result with
  | nil => simp [appendValues]
  | cons e rest ih =>
    obtain ⟨k, v⟩ := e
    simp [appendValues, ih]

theorem foldl_AddFunction_cache (fs : List CreateFunctionRequest) (d : defaultProviderRouting) :
    (d.cache.keys.Nodup → (fs.foldl AddFunction d).cache.keys.Nodup)
      ∧ (∀ e ∈ (fs.foldl AddFunction d).cache, e ∈ d.cache ∨ e.1 = e.2.Service)
      ∧ (∀ n, n ∈ (fs.foldl AddFunction d).cache.keys ↔
          n ∈ d.cache.keys ∨ n ∈ fs.map (fun f => f.Service)) := by
  induction fs generalizing d with
  | nil => exact ⟨fun h => h, fun e he => Or.inl he, fun n => by simp⟩
  | cons f rest ih =>
    simp only [List.foldl_cons]
    obtain ⟨h1, h2, h3⟩ := ih (AddFunction d f)
    refine ⟨?_, ?_, ?_⟩
    · intro hn
      exact h1 (GoMap.nodup_keys_set d.cache f.Service f hn)
    · intro e he
      rcases h2 e he with hmem | hkey
      · rcases GoMap.mem_set d.cache f.Service f e hmem with hnew | hold
        · right
          rw [hnew]
        · exact Or.inl hold
      · exact Or.inr hkey
    · intro n
      rw [h3 n]
      simp only [List.map_cons, List.mem_cons]
      constructor
      · rintro (hk | hr)
        · rcases GoMap.keys_of_set d.cache f.Service f n hk with hnew | hold
          · exact Or.inr (Or.inl hnew)
          · exact Or.inl hold
        · exact Or.inr (Or.inr hr)
      · rintro (hold | hnew | hr)
        · exact Or.inl (GoMap.keys_subset_set d.cache f.Service f n hold)
        · left
          rw [hnew]
          exact GoMap.key_mem_set d.cache f.Service f
        · exact Or.inr hr

/-- C11: for a registry reached from the empty one by any sequence of
`AddFunction` calls, and every order in which `GetFunctions` visits it, the
returned sequence has as many elements as distinct names were added, every
element `e` satisfies `GetFunction(e.Service) = (e, true)`, no name occurs
twice in it, and the names in it are exactly the names added. -/
theorem GetFunctions_one_per_name (d0 : defaultProviderRouting)
    (fs : List CreateFunctionRequest) (order : List (String × CreateFunctionRequest))
    (h0 : d0.cache = []) (horder : (fs.foldl AddFunction d0).cache.IterOrder order) :
    (GetFunctions order).length = ((fs.map (fun f => f.Service)).dedup).length
      ∧ (∀ e ∈ GetFunctions order,
          GetFunction (fs.foldl AddFunction d0) e.Service = (some e, true))
      ∧ ((GetFunctions order).map (fun f => f.Service)).Nodup
      ∧ (∀ n, n ∈ (GetFunctions order).map (fun f => f.Service) ↔
          n ∈ fs.map (fun f => f.Service)) := by
  obtain ⟨h1, h2, h3⟩ := foldl_AddFunction_cache fs d0
  have hnodup : (fs.foldl AddFunction d0).cache.keys.Nodup := by
    apply h1
    rw [h0]
    exact List.nodup_nil
  have hkey : ∀ e ∈ (fs.foldl AddFunction d0).cache, e.1 = e.2.Service := by
    intro e he
    rcases h2 e he with hmem | hk
    · rw [h0] at hmem
      exact absurd hmem (List.not_mem_nil e)
    · exact hk
  have hnames : ∀ n, n ∈ (fs.foldl AddFunction d0).cache.keys ↔
      n ∈ fs.map (fun f => f.Service) := by
    intro n
    rw [h3 n, h0]
    simp [GoMap.keys]
  have hG : GetFunctions order = order.map Prod.snd := by
    simp [GetFunctions, appendValues_eq]
  have hservice : (GetFunctions order).map (fun f => f.Service) = order.map Prod.fst := by
    rw [hG, List.map_map]
    apply List.map_congr_left
    intro e he
    exact (hkey e ((List.Perm.mem_iff horder).mp he)).symm
  have hperm : (order.map Prod.fst).Perm (fs.foldl AddFunction d0).cache.keys :=
    List.Perm.map Prod.fst horder
  refine ⟨?_, ?_, ?_, ?_⟩
  · have hlen : (GetFunctions order).length = (order.map Prod.fst).length := by
      rw [hG, List.length_map, List.length_map]
    rw [hlen, hperm.length_eq]
    apply List.Perm.length_eq
    apply (List.perm_ext_iff_of_nodup hnodup (List.nodup_dedup _)).mpr
    intro n
    rw [hnames n, List.mem_dedup]
  · intro e he
    rw [hG] at he
    obtain ⟨kv, hkv, hsnd⟩ := List.mem_map.mp he
    have hmem : kv ∈ (fs.foldl AddFunction d0).cache := (List.Perm.mem_iff horder).mp hkv
    have hk : kv.1 = e.Service := by
      rw [hkey kv hmem, hsnd]
    have hmem' : (e.Service, e) ∈ (fs.foldl AddFunction d0).cache := by
      rw [← hk, ← hsnd]
      exact hmem
    simp [GetFunction, GoMap.get?_of_mem _ hnodup e.Service e hmem']
  · rw [hservice]
    exact (List.Perm.nodup_iff hperm).mpr hnodup
  · intro n
    rw [hservice, List.Perm.mem_iff hperm]
    exact hnames n

/-- C12: `AddFunction(f)` leaves `GetFunction(m)` as it was for every name `m`
other than `f.Service`, and leaves the provider directory and the default
provider as they were; `Resolve`, `GetFunction` and `GetFunctions` leave the
whole state as it was. -/
theorem AddFunction_frame (d : defaultProviderRouting) (f : CreateFunctionRequest) :
    (∀ m, m ≠ f.Service → GetFunction (AddFunction d f) m = GetFunction d m)
      ∧ (AddFunction d f).providers = d.providers
      ∧ (AddFunction d f).defaultProvider = d.defaultProvider
      ∧ Call.after d (Call.AddFunction f) = AddFunction d f
      ∧ (∀ n, Call.after d (Call.Resolve n) = d)
      ∧ (∀ n, Call.after d (Call.GetFunction n) = d)
      ∧ Call.after d Call.GetFunctions = d := by
  refine ⟨?_, rfl, rfl, rfl, fun _ => rfl, fun _ => rfl, rfl⟩
  intro m hm
  simp [GetFunction, AddFunction, GoMap.get?_set_of_ne d.cache f.Service m f (Ne.symm hm)]

/-- C17: the outward summary of a stored descriptor has both replica counts
equal to 1 and carries the name, image, environment process, labels and
annotations of the descriptor unchanged. -/
theorem createToRequest_fields (r : CreateFunctionRequest) :
    (createToRequest r).Replicas = 1
      ∧ (createToRequest r).AvailableReplicas = 1
      ∧ (createToRequest r).Name = r.Service
      ∧ (createToRequest r).Image = r.Image
      ∧ (createToRequest r).EnvProcess = r.EnvProcess
      ∧ (createToRequest r).Labels = r.Labels
      ∧ (createToRequest r).Annotations = r.Annotations :=
  ⟨rfl, rfl, rfl, rfl, rfl, rfl, rfl⟩

/-! ## The constructor and the hostname of a provider -/

theorem buildProviderMap_error (L : Lib) (ps : List String)
    (h : ∃ v ∈ ps, ∃ err, L.urlParse v = .error err) (acc : GoMap String URL) :
    ∃ msg, buildProviderMap L ps acc = .error msg := by
  induction ps generalizing acc with
  | nil =>
    obtain ⟨v, hv, _⟩ := h
    exact absurd hv (List.not_mem_nil v)
  | cons p rest ih =>
    cases hp : L.urlParse p with
    | error err =>
      simp only [buildProviderMap, hp]
      exact ⟨_, rfl⟩
    | ok u =>
      simp only [buildProviderMap, hp]
      apply ih
      obtain ⟨v, hv, err, herr⟩ := h
      rcases List.mem_cons.mp hv with hvp | hvr
      · rw [hvp, hp] at herr
        cases herr
      · exact ⟨v, hvr, err, herr⟩

theorem buildProviderMap_ok (L : Lib) (ps : List String)
    (h : ∀ v ∈ ps, ∃ u, L.urlParse v = .ok u) (acc : GoMap String URL) :
    ∃ m, buildProviderMap L ps acc = .ok m := by
  induction ps generalizing acc with
  | nil => exact ⟨acc, rfl⟩
  | cons p rest ih =>
    obtain ⟨u, hu⟩ := h p (List.mem_cons_self _ _)
    simp only [buildProviderMap, hu]
    exact ih (fun v hv => h v (List.mem_cons_of_mem _ hv)) _

/-- C14: `NewDefaultProviderRouting` returns an error and no lookup whenever
a URL of the providers list or the default provider URL does not parse; when
all of them parse it returns no error and a routing whose registry is empty
and whose default provider is the parsed default URL. -/
theorem NewDefaultProviderRouting_result (L : Lib) (providers : List String)
    (defaultProvider : String) :
    (((∃ v ∈ providers, ∃ err, L.urlParse v = .error err)
          ∨ (∃ err, L.urlParse defaultProvider = .error err)) →
        ∃ msg, NewDefaultProviderRouting L providers defaultProvider = (none, some msg))
      ∧ ((∀ v ∈ providers, ∃ u, L.urlParse v = .ok u) →
          ∀ d, L.urlParse defaultProvider = .ok d →
          ∃ r, NewDefaultProviderRouting L providers defaultProvider = (some r, none)
            ∧ r.cache = [] ∧ r.defaultProvider = d) := by
  constructor
  · intro h
    cases hb : buildProviderMap L providers [] with
    | error msg =>
      simp only [NewDefaultProviderRouting, hb]
      exact ⟨_, rfl⟩
    | ok m =>
      rcases h with hp | ⟨err, hd⟩
      · obtain ⟨msg, hmsg⟩ := buildProviderMap_error L providers hp []
        rw [hb] at hmsg
        cases hmsg
      · simp only [NewDefaultProviderRouting, hb, hd]
        exact ⟨_, rfl⟩
  · intro hall d hd
    obtain ⟨m, hm⟩ := buildProviderMap_ok L providers hall []
    simp only [NewDefaultProviderRouting, hm, hd]
    exact ⟨_, rfl, rfl, rfl⟩

theorem splitAux_head (sep : Char) (cs cur : List Char) :
    ∃ tail, splitAux sep cs cur
      = (cur.reverse ++ cs.takeWhile (fun c => decide (c ≠ sep))) :: tail := by
  induction cs generalizing cur with
  | nil => exact ⟨[], by simp [splitAux]⟩
  | cons c rest ih =>
    by_cases hc : c = sep
    · exact ⟨splitAux sep rest [], by simp [splitAux, hc, List.takeWhile]⟩
    · obtain ⟨tail, ht⟩ := ih (c :: cur)
      exact ⟨tail, by simp [splitAux, hc, List.takeWhile, ht]⟩

theorem getHostNameWithoutPorts_eq (v : URL) :
    getHostNameWithoutPorts v
      = String.mk (v.Host.data.takeWhile (fun c => decide (c ≠ ':'))) := by
  obtain ⟨tail, ht⟩ := splitAux_head ':' v.Host.data []
  simp [getHostNameWithoutPorts, Split, ht]

theorem takeWhile_ne_append (sep : Char) (l r : List Char) (h : sep ∉ l) :
    (l ++ sep :: r).takeWhile (fun c => decide (c ≠ sep)) = l := by
  induction l with
  | nil => simp [List.takeWhile]
  | cons c rest ih =>
    have hc : c ≠ sep := fun hcs => h (by simp [hcs])
    have hrest : sep ∉ rest := fun hm => h (List.mem_cons_of_mem _ hm)
    have ih' := ih hrest
    simp only [List.cons_append, List.takeWhile, hc, ne_eq, not_false_eq_true, decide_True]
    exact congrArg (List.cons c) ih'

/-- C18, as amended: `getHostNameWithoutPorts` returns the part of `Host`
before its first colon. For every URL whose `Host` is `h` or `h:port` with `h`
holding no colon (a name or an IPv4 address, not an IPv6 literal) the result
is `h`; the result never contains a colon; and the key under which
`NewDefaultProviderRouting` stores a provider is this value: every entry of
the directory is stored under it, and every listed provider has an entry
under it. -/
theorem getHostNameWithoutPorts_spec :
    (∀ (v : URL) (h port : String), ':' ∉ h.data →
        (v.Host = h ∨ v.Host = h ++ ":" ++ port) → getHostNameWithoutPorts v = h)
      ∧ (∀ v : URL, ':' ∉ (getHostNameWithoutPorts v).data)
      ∧ (∀ (L : Lib) (providers : List String) (defaultProvider : String)
          (d0 : defaultProviderRouting),
          NewDefaultProviderRouting L providers defaultProvider = (some d0, none) →
          (∀ e ∈ d0.providers, e.1 = getHostNameWithoutPorts e.2)
            ∧ (∀ q ∈ providers, ∀ u, L.urlParse q = .ok u →
                ∃ w, d0.providers.get? (getHostNameWithoutPorts u) = some w))
      ∧ (∀ v : URL, getHostNameWithoutPorts v
          = String.mk (v.Host.data.takeWhile (fun c => decide (c ≠ ':')))) := by
  refine ⟨?_, ?_, ?_, getHostNameWithoutPorts_eq⟩
  · intro v h port hcolon hHost
    rw [getHostNameWithoutPorts_eq]
    rcases hHost with hh | hh
    · rw [hh]
      have htw : h.data.takeWhile (fun c => decide (c ≠ ':')) = h.data := by
        apply List.takeWhile_eq_self_iff.mpr
        intro x hx
        have hne : x ≠ ':' := fun hxc => hcolon (hxc ▸ hx)
        simpa using hne
      rw [htw]
    · rw [hh]
      have hdata : (h ++ ":" ++ port).data = h.data ++ ':' :: port.data := by
        simp [String.data_append]
      rw [hdata, takeWhile_ne_append ':' h.data port.data hcolon]
  · intro v hmem
    rw [getHostNameWithoutPorts_eq] at hmem
    have hp := List.mem_takeWhile_imp hmem
    simp at hp
  · intro L providers defaultProvider d0 hNew
    obtain ⟨h1, _, h3, _⟩ :=
      buildProviderMap_spec L providers [] d0.providers
        (NewDefaultProviderRouting_providers L providers defaultProvider d0 hNew)
    refine ⟨?_, ?_⟩
    · intro e he
      rcases h1 e he with hnil | ⟨hk, _⟩
      · exact absurd hnil (List.not_mem_nil e)
      · exact hk
    · intro q hq u hu
      have hkey := h3 q hq u hu
      cases hg : d0.providers.get? (getHostNameWithoutPorts u) with
      | none => exact absurd hkey ((GoMap.get?_eq_none_iff _ _).mp hg)
      | some w => exact ⟨w, rfl⟩

/-! ## Soundness of the resolution -/

theorem matchBasedOnName_some (L : Lib) (order : List (String × URL)) (v : String) (u : URL)
    (h : matchBasedOnName L order v = some u) :
    (∃ k, (k, u) ∈ order) ∧ L.EqualFold (getHostNameWithoutPorts u) v = true := by
  induction order with
  | nil => simp [matchBasedOnName] at h
  | cons e rest ih =>
    obtain ⟨k, u'⟩ := e
    by_cases hm : L.EqualFold (getHostNameWithoutPorts u') v = true
    · simp only [matchBasedOnName, hm, if_true, Option.some.injEq] at h
      subst h
      exact ⟨⟨k, List.mem_cons_self _ _⟩, hm⟩
    · simp only [matchBasedOnName, hm] at h
      obtain ⟨⟨k', hk'⟩, hfold⟩ := ih h
      exact ⟨⟨k', List.mem_cons_of_mem _ hk'⟩, hfold⟩

/-- C19: whenever `Resolve(n)` returns a URL `u`, `u` is the default provider
or a value of the provider directory; and when `u` is not the default
provider, `n` is registered with an affinity annotation of some value `v`,
`u` is stored in the directory under its port-stripped hostname, `u` is the
parse of one of the URLs given to `NewDefaultProviderRouting`, and the
port-stripped hostname of `u` equals `v` ignoring case. -/
theorem Resolve_sound (L : Lib) (providers : List String) (defaultProvider : String)
    (d0 : defaultProviderRouting) (fs : List CreateFunctionRequest)
    (order : List (String × URL)) (n : String) (u : URL) (err : Option String)
    (hNew : NewDefaultProviderRouting L providers defaultProvider = (some d0, none))
    (horder : (fs.foldl AddFunction d0).providers.IterOrder order)
    (hres : Resolve L (fs.foldl AddFunction d0) order n = .ok (some u, err)) :
    (u = (fs.foldl AddFunction d0).defaultProvider
        ∨ ∃ k, (k, u) ∈ (fs.foldl AddFunction d0).providers)
      ∧ (u ≠ (fs.foldl AddFunction d0).defaultProvider →
          ∃ f a v, GetFunction (fs.foldl AddFunction d0) n = (some f, true)
            ∧ f.Annotations = some a
            ∧ a.get? federationProviderNameConstraint = some v
            ∧ (getHostNameWithoutPorts u, u) ∈ (fs.foldl AddFunction d0).providers
            ∧ (∃ q ∈ providers, L.urlParse q = .ok u)
            ∧ L.EqualFold (getHostNameWithoutPorts u) v = true) := by
  have hprov : (fs.foldl AddFunction d0).providers = d0.providers :=
    (foldl_AddFunction_providers fs d0).1
  obtain ⟨h1, _, _, _⟩ :=
    buildProviderMap_spec L providers [] d0.providers
      (NewDefaultProviderRouting_providers L providers defaultProvider d0 hNew)
  cases hf : (fs.foldl AddFunction d0).cache.get? n with
  | none => simp [Resolve, GetFunction, hf] at hres
  | some f =>
    cases ha : f.Annotations with
    | none => simp [Resolve, GetFunction, hf, ha] at hres
    | some a =>
      cases hv : a.get? federationProviderNameConstraint with
      | none =>
        simp only [Resolve, GetFunction, hf, ha, hv, Option.isSome_some, Except.ok.injEq,
          Prod.mk.injEq, Option.some.injEq] at hres
        exact ⟨Or.inl hres.1.symm, fun hne => absurd hres.1.symm hne⟩
      | some v =>
        rw [Resolve_of_affinity L _ order n f a v hf ha hv] at hres
        cases hm : matchBasedOnName L order v with
        | none =>
          simp only [hm, Option.getD_none, Except.ok.injEq, Prod.mk.injEq,
            Option.some.injEq] at hres
          exact ⟨Or.inl hres.1.symm, fun hne => absurd hres.1.symm hne⟩
        | some w =>
          simp only [hm, Option.getD_some, Except.ok.injEq, Prod.mk.injEq,
            Option.some.injEq] at hres
          have hwu : w = u := hres.1
          subst hwu
          obtain ⟨⟨k, hk⟩, hfold⟩ := matchBasedOnName_some L order v w hm
          have hmem : (k, w) ∈ (fs.foldl AddFunction d0).providers :=
            (List.Perm.mem_iff horder).mp hk
          have hmem0 : (k, w) ∈ d0.providers := hprov ▸ hmem
          have hentry : k = getHostNameWithoutPorts w ∧ ∃ q ∈ providers, L.urlParse q = .ok w := by
            rcases h1 (k, w) hmem0 with hnil | hspec
            · exact absurd hnil (List.not_mem_nil _)
            · exact hspec
          refine ⟨Or.inr ⟨k, hmem⟩, fun _ => ⟨f, a, v, ?_, ha, hv, ?_, hentry.2, hfold⟩⟩
          · simp [GetFunction, hf]
          · rw [← hentry.1]
            exact hmem

/-! ## The aggregation loop -/

theorem sliceIndex_of_inRange (providers : List String) (r : GetResult)
    (h : r.InRange providers) :
    sliceIndex providers r.Index = .ok (r.provider providers) := by
  obtain ⟨h0, hlt⟩ := h
  have hnot : ¬ r.Index < 0 := not_lt.mpr h0
  have hnat : r.Index.toNat < providers.length := by omega
  cases hg : providers.get? r.Index.toNat with
  | none =>
    have hle := List.get?_eq_none.mp hg
    omega
  | some x =>
    have hgetD : providers.getD r.Index.toNat "" = x := by
      simp only [List.getD_eq_getElem?_getD, ← List.get?_eq_getElem?, hg, Option.getD_some]
    simp only [sliceIndex, hnot, if_false, hg, GetResult.provider, hgetD]

theorem readResults_cons_succeeds (L : Lib) (providers : List String) (r : GetResult)
    (rest : List GetResult) (acc : GoMap String (List (Option Function)))
    (hs : r.Succeeds L) (hr : r.InRange providers) :
    readResults L providers (r :: rest) acc
      = readResults L providers rest
          (appendFunctions acc (r.provider providers) (r.functions L)) := by
  obtain ⟨hErr, resp, body, hResp, hstatus, hBody, hdec⟩ := hs
  simp only [readResults, hErr, hResp, hstatus, if_false, hBody, hdec,
    sliceIndex_of_inRange providers r hr, appendFunctions]

theorem readResults_cons_fails (L : Lib) (providers : List String) (r : GetResult)
    (rest : List GetResult) (acc : GoMap String (List (Option Function)))
    (hf : r.Fails) (hr : r.InRange providers) :
    readResults L providers (r :: rest) acc = .ok (some ⟨acc⟩, none) := by
  cases hErr : r.Err with
  | some e => simp only [readResults, hErr, sliceIndex_of_inRange providers r hr]
  | none =>
    rcases hf with hne | ⟨resp, hResp, hstatus⟩
    · exact absurd hErr hne
    · simp only [readResults, hErr, hResp, hstatus, if_true,
        sliceIndex_of_inRange providers r hr]

theorem readResults_succeed (L : Lib) (providers : List String) (rs : List GetResult)
    (acc : GoMap String (List (Option Function)))
    (h : ∀ r ∈ rs, r.Succeeds L ∧ r.InRange providers) :
    readResults L providers rs acc
      = .ok (some ⟨rs.foldl
          (fun m r => appendFunctions m (r.provider providers) (r.functions L)) acc⟩, none) := by
  induction rs generalizing acc with
  | nil => rfl
  | cons r rest ih =>
    obtain ⟨hs, hr⟩ := h r (List.mem_cons_self _ _)
    rw [readResults_cons_succeeds L providers r rest acc hs hr,
      ih _ (fun r' hr' => h r' (List.mem_cons_of_mem _ hr'))]
    rfl

theorem readResults_stop (L : Lib) (providers : List String) (pre : List GetResult)
    (bad : GetResult) (post : List GetResult) (acc : GoMap String (List (Option Function)))
    (h : ∀ r ∈ pre, r.Succeeds L ∧ r.InRange providers)
    (hbad : bad.Fails) (hr : bad.InRange providers) :
    readResults L providers (pre ++ bad :: post) acc
      = .ok (some ⟨pre.foldl
          (fun m r => appendFunctions m (r.provider providers) (r.functions L)) acc⟩, none) := by
  induction pre generalizing acc with
  | nil => exact readResults_cons_fails L providers bad post acc hbad hr
  | cons r rest ih =>
    obtain ⟨hs, hrr⟩ := h r (List.mem_cons_self _ _)
    rw [List.cons_append, readResults_cons_succeeds L providers r _ acc hs hrr,
      ih _ (fun r' hr' => h r' (List.mem_cons_of_mem _ hr'))]
    rfl

/-- C16: when the first failing entry of the result list (a transport error
or a status above 399) is at position `j`, the entries before it succeed and
decode and the indices are those of providers, `ReadServices` returns no error
and the map built from exactly the entries before position `j`: it is the
result of `ReadServices` on the list cut before `j`, whatever the entries
after `j` hold and whatever decoding their bodies would give. -/
theorem ReadServices_stops_at_first_failure (L : Lib) (Get : List URL → Nat → List GetResult)
    (providers : List String) (urls : List URL) (pre : List GetResult) (bad : GetResult)
    (post : List GetResult) (j : Nat)
    (hurls : listURLs L providers = .ok urls)
    (hget : Get urls providers.length = pre ++ bad :: post)
    (hj : pre.length = j)
    (hpre : ∀ r ∈ pre, r.Succeeds L ∧ r.InRange providers)
    (hbad : bad.Fails) (hr : bad.InRange providers) :
    (Get urls providers.length).get? j = some bad
      ∧ ReadServices L Get providers = .ok (some ⟨mergeResults L providers pre⟩, none)
      ∧ ReadServices L Get providers
          = ReadServices L (fun _ _ => (Get urls providers.length).take j) providers := by
  refine ⟨?_, ?_, ?_⟩
  · rw [hget, ← hj]
    clear hget hpre hj
    induction pre with
    | nil => rfl
    | cons r rest ih => simpa using ih
  · simp only [ReadServices, hurls, hget]
    exact readResults_stop L providers pre bad post [] hpre hbad hr
  · have htake : (pre ++ bad :: post).take j = pre := by
      rw [← hj]
      simp
    simp only [ReadServices, hurls, hget, htake]
    rw [readResults_stop L providers pre bad post [] hpre hbad hr,
      readResults_succeed L providers pre [] hpre]

theorem GoMap.set_of_not_mem {κ ν : Type} [DecidableEq κ] (m : GoMap κ ν) (k : κ) (v : ν)
    (h : k ∉ m.keys) : m.set k v = m ++ [(k, v)] := by
  induction m with
  | nil => rfl
  | cons e rest ih =>
    obtain ⟨k', v'⟩ := e
    simp only [GoMap.keys, List.map_cons, List.mem_cons, not_or] at h
    have hne : ¬ k' = k := fun hk => h.1 hk.symm
    simp only [GoMap.set, hne, if_false, List.cons_append]
    rw [ih h.2]

theorem GoMap.get?_perm {κ ν : Type} [DecidableEq κ] (m₁ m₂ : GoMap κ ν) (hp : m₁.Perm m₂)
    (hn : m₂.keys.Nodup) (k : κ) : m₁.get? k = m₂.get? k := by
  have hkeys : m₁.keys.Perm m₂.keys := List.Perm.map Prod.fst hp
  have hn₁ : m₁.keys.Nodup := (List.Perm.nodup_iff hkeys).mpr hn
  cases hg : m₂.get? k with
  | none =>
    apply (GoMap.get?_eq_none_iff m₁ k).mpr
    intro hmem
    exact (GoMap.get?_eq_none_iff m₂ k).mp hg ((List.Perm.mem_iff hkeys).mp hmem)
  | some v =>
    exact GoMap.get?_of_mem m₁ hn₁ k v
      ((List.Perm.mem_iff hp).mpr (GoMap.mem_of_get?_eq_some m₂ k v hg))

theorem foldl_appendFunctions_distinct (L : Lib) (providers : List String)
    (rs : List GetResult) (acc : GoMap String (List (Option Function)))
    (hn : (rs.map (fun r => r.provider providers)).Nodup)
    (hacc : ∀ r ∈ rs, r.provider providers ∉ acc.keys) :
    rs.foldl (fun m r => appendFunctions m (r.provider providers) (r.functions L)) acc
      = acc ++ rs.map (fun r => (r.provider providers, r.functions L)) := by
  induction rs generalizing acc with
  | nil => simp
  | cons r rest ih =>
    have hr : r.provider providers ∉ acc.keys := hacc r (List.mem_cons_self _ _)
    have hnone : acc.get? (r.provider providers) = none := (GoMap.get?_eq_none_iff _ _).mpr hr
    have hstep : appendFunctions acc (r.provider providers) (r.functions L)
        = acc ++ [(r.provider providers, r.functions L)] := by
      simp only [appendFunctions, hnone, Option.getD_none, List.nil_append]
      exact GoMap.set_of_not_mem acc _ _ hr
    simp only [List.map_cons, List.nodup_cons] at hn
    simp only [List.foldl_cons, hstep]
    rw [ih _ hn.2]
    · simp
    · intro r' hr' hmem
      simp only [GoMap.keys, List.map_append, List.map_cons, List.map_nil, List.mem_append,
        List.mem_singleton] at hmem
      rcases hmem with hmem | hmem
      · exact hacc r' (List.mem_cons_of_mem _ hr') hmem
      · exact hn.1 (List.mem_map.mpr ⟨r', hr', hmem⟩)

theorem map_getD_range (l : List String) (d : String) :
    (List.range l.length).map (fun n => l.getD n d) = l := by
  induction l with
  | nil => rfl
  | cons a rest ih =>
    rw [List.length_cons, List.range_succ_eq_map, List.map_cons, List.map_map]
    simp only [List.getD_cons_zero]
    congr 1

theorem providers_of_results (providers : List String) (results : List GetResult)
    (hindex : (results.map (fun r => r.Index)).Perm
      ((List.range providers.length).map Int.ofNat)) :
    (results.map (fun r => r.provider providers)).Perm providers
      ∧ ∀ r ∈ results, r.InRange providers := by
  constructor
  · have h1 := List.Perm.map (fun i : Int => providers.getD i.toNat "") hindex
    simp only [List.map_map] at h1
    have h2 : (List.range providers.length).map
        ((fun i : Int => providers.getD i.toNat "") ∘ Int.ofNat) = providers := by
      have h3 := map_getD_range providers ""
      exact h3
    rw [h2] at h1
    exact h1
  · intro r hr
    have hmem : r.Index ∈ (List.range providers.length).map Int.ofNat :=
      (List.Perm.mem_iff hindex).mp (List.mem_map.mpr ⟨r, hr, rfl⟩)
    obtain ⟨n, hn, hnr⟩ := List.mem_map.mp hmem
    have hlt : n < providers.length := List.mem_range.mp hn
    constructor
    · rw [← hnr]
      exact Int.ofNat_nonneg n
    · rw [← hnr]
      exact Int.ofNat_lt.mpr hlt

theorem ReadServices_succeed_map (L : Lib) (Get : List URL → Nat → List GetResult)
    (providers : List String) (urls : List URL) (results : List GetResult)
    (hdistinct : providers.Nodup)
    (hurls : listURLs L providers = .ok urls)
    (hget : Get urls providers.length = results)
    (hindex : (results.map (fun r => r.Index)).Perm
      ((List.range providers.length).map Int.ofNat))
    (hgood : ∀ r ∈ results, r.Succeeds L) :
    ReadServices L Get providers = .ok (some ⟨mergeResults L providers results⟩, none)
      ∧ mergeResults L providers results
          = results.map (fun r => (r.provider providers, r.functions L))
      ∧ (mergeResults L providers results).keys.Perm providers := by
  obtain ⟨hprov, hrange⟩ := providers_of_results providers results hindex
  have hn : (results.map (fun r => r.provider providers)).Nodup :=
    (List.Perm.nodup_iff hprov).mpr hdistinct
  have hmerge : mergeResults L providers results
      = results.map (fun r => (r.provider providers, r.functions L)) := by
    have h := foldl_appendFunctions_distinct L providers results [] hn
      (fun r _ hmem => absurd hmem (List.not_mem_nil _))
    simpa [mergeResults] using h
  refine ⟨?_, hmerge, ?_⟩
  · simp only [ReadServices, hurls, hget]
    exact readResults_succeed L providers results [] (fun r hr => ⟨hgood r hr, hrange r hr⟩)
  · rw [hmerge]
    simpa [GoMap.keys, List.map_map, Function.comp_def] using hprov

/-- C13: for pairwise distinct providers and a list of results of `Get`, in
any order, that holds one result per provider index and in which every result
succeeds and decodes, `ReadServices` returns no error and a map whose keys are
exactly the providers and which maps the provider of each result to exactly
the function list the result decodes to; for every permutation of the result
list the returned map holds the same value under every key. -/
theorem ReadServices_all_succeed (L : Lib) (Get Get' : List URL → Nat → List GetResult)
    (providers : List String) (urls : List URL) (results results' : List GetResult)
    (hdistinct : providers.Nodup)
    (hurls : listURLs L providers = .ok urls)
    (hget : Get urls providers.length = results)
    (hindex : (results.map (fun r => r.Index)).Perm
      ((List.range providers.length).map Int.ofNat))
    (hgood : ∀ r ∈ results, r.Succeeds L)
    (hperm : results'.Perm results)
    (hget' : Get' urls providers.length = results') :
    ∃ m m', ReadServices L Get providers = .ok (some ⟨m⟩, none)
      ∧ m.keys.Perm providers
      ∧ (∀ r ∈ results, sliceIndex providers r.Index = .ok (r.provider providers)
          ∧ m.get? (r.provider providers) = some (r.functions L))
      ∧ (∀ i (hi : i < providers.length), ∃ r ∈ results, r.Index = Int.ofNat i
          ∧ m.get? (providers.get ⟨i, hi⟩) = some (r.functions L))
      ∧ ReadServices L Get' providers = .ok (some ⟨m'⟩, none)
      ∧ ∀ k, m'.get? k = m.get? k := by
  obtain ⟨hRead, hmerge, hkeys⟩ :=
    ReadServices_succeed_map L Get providers urls results hdistinct hurls hget hindex hgood
  have hindex' : (results'.map (fun r => r.Index)).Perm
      ((List.range providers.length).map Int.ofNat) :=
    List.Perm.trans (List.Perm.map _ hperm) hindex
  have hgood' : ∀ r ∈ results', r.Succeeds L :=
    fun r hr => hgood r ((List.Perm.mem_iff hperm).mp hr)
  obtain ⟨hRead', hmerge', _⟩ :=
    ReadServices_succeed_map L Get' providers urls results' hdistinct hurls hget' hindex' hgood'
  have hnodup : (mergeResults L providers results).keys.Nodup :=
    (List.Perm.nodup_iff hkeys).mpr hdistinct
  have hrange := (providers_of_results providers results hindex).2
  have hvalue : ∀ r ∈ results,
      (mergeResults L providers results).get? (r.provider providers)
        = some (r.functions L) := by
    intro r hr
    apply GoMap.get?_of_mem _ hnodup
    rw [hmerge]
    exact List.mem_map.mpr ⟨r, hr, rfl⟩
  refine ⟨mergeResults L providers results, mergeResults L providers results', hRead, hkeys,
    ?_, ?_, hRead', ?_⟩
  · intro r hr
    exact ⟨sliceIndex_of_inRange providers r (hrange r hr), hvalue r hr⟩
  · intro i hi
    have hmem : Int.ofNat i ∈ results.map (fun r => r.Index) :=
      (List.Perm.mem_iff hindex).mpr
        (List.mem_map.mpr ⟨i, List.mem_range.mpr hi, rfl⟩)
    obtain ⟨r, hr, hri⟩ := List.mem_map.mp hmem
    refine ⟨r, hr, hri, ?_⟩
    have hv := hvalue r hr
    have hprovider : r.provider providers = providers.get ⟨i, hi⟩ := by
      simp only [GetResult.provider, hri, Int.toNat_ofNat]
      simp [List.getD_eq_getElem?_getD, List.getElem?_eq_getElem hi]
    rw [← hprovider]
    exact hv
  · intro k
    apply GoMap.get?_perm _ _ _ hnodup
    rw [hmerge, hmerge']
    exact List.Perm.map _ hperm

/-! ## The later claims on concrete inputs -/

theorem answeredFetch_succeeds (i : Int) (body : String)
    (function : List (Option Function)) (h : goLib.jsonUnmarshal body = .ok function) :
    (answeredFetch i 200 body).Succeeds goLib := by
  have hstatus : ¬ (200 : Int) > 399 := by decide
  refine ⟨rfl, ⟨200, .ok body⟩, body, rfl, hstatus, rfl, ?_⟩
  simp only [GetResult.functions, answeredFetch, h]

/-- Witness of C11: `echo` is added twice to the empty registry, and
`GetFunctions` returns the one descriptor written last. -/
theorem GetFunctions_one_per_name_witness :
    (GetFunctions [("echo", echo none)]).length
        = (([echoWithAffinity "p2", echo none].map (fun f => f.Service)).dedup).length
      ∧ (∀ e ∈ GetFunctions [("echo", echo none)],
          GetFunction ([echoWithAffinity "p2", echo none].foldl AddFunction
            (routingOf directoryP1P2)) e.Service = (some e, true))
      ∧ ((GetFunctions [("echo", echo none)]).map (fun f => f.Service)).Nodup
      ∧ (∀ n, n ∈ (GetFunctions [("echo", echo none)]).map (fun f => f.Service) ↔
          n ∈ [echoWithAffinity "p2", echo none].map (fun f => f.Service)) :=
  GetFunctions_one_per_name (routingOf directoryP1P2) [echoWithAffinity "p2", echo none]
    [("echo", echo none)] rfl (List.Perm.refl _)

/-- Witness of C12: adding `echo` leaves the lookup of `other` as it was. -/
theorem AddFunction_frame_witness :
    GetFunction (AddFunction (routingOf directoryP1P2) (echoWithAffinity "p2")) "other"
      = GetFunction (routingOf directoryP1P2) "other" :=
  (AddFunction_frame (routingOf directoryP1P2) (echoWithAffinity "p2")).1 "other" (by decide)

/-- Witness of C13: two providers whose results come back in the order 1, 0;
the permuted list is the order 0, 1. -/
theorem ReadServices_all_succeed_witness :
    ∃ m m', ReadServices goLib
          (fun _ _ => [answeredFetch 1 200 bodyF2, answeredFetch 0 200 bodyF1]) providersP1P2
        = .ok (some ⟨m⟩, none)
      ∧ m.keys.Perm providersP1P2
      ∧ (∀ r ∈ [answeredFetch 1 200 bodyF2, answeredFetch 0 200 bodyF1],
          sliceIndex providersP1P2 r.Index = .ok (r.provider providersP1P2)
          ∧ m.get? (r.provider providersP1P2) = some (r.functions goLib))
      ∧ (∀ i (hi : i < providersP1P2.length),
          ∃ r ∈ [answeredFetch 1 200 bodyF2, answeredFetch 0 200 bodyF1], r.Index = Int.ofNat i
          ∧ m.get? (providersP1P2.get ⟨i, hi⟩) = some (r.functions goLib))
      ∧ ReadServices goLib
          (fun _ _ => [answeredFetch 0 200 bodyF1, answeredFetch 1 200 bodyF2]) providersP1P2
        = .ok (some ⟨m'⟩, none)
      ∧ ∀ k, m'.get? k = m.get? k :=
  ReadServices_all_succeed goLib
    (fun _ _ => [answeredFetch 1 200 bodyF2, answeredFetch 0 200 bodyF1])
    (fun _ _ => [answeredFetch 0 200 bodyF1, answeredFetch 1 200 bodyF2])
    providersP1P2 urlsP1P2
    [answeredFetch 1 200 bodyF2, answeredFetch 0 200 bodyF1]
    [answeredFetch 0 200 bodyF1, answeredFetch 1 200 bodyF2]
    (by decide) (by decide) rfl (List.Perm.swap _ _ _)
    (by
      intro r hr
      simp only [List.mem_cons, List.mem_singleton, List.not_mem_nil, or_false] at hr
      rcases hr with hr | hr
      · rw [hr]
        exact answeredFetch_succeeds 1 bodyF2 [some (namedFunction "f2")] (by decide)
      · rw [hr]
        exact answeredFetch_succeeds 0 bodyF1 [some (namedFunction "f1")] (by decide))
    (List.Perm.swap _ _ _) rfl

/-- Witness of C14: a provider URL with a blank in its host does not parse;
the two providers of the examples do. -/
theorem NewDefaultProviderRouting_result_witness :
    (∃ msg, NewDefaultProviderRouting goLib ["http://p1:8080", "http://p 2:8080"]
        "http://p1:8080" = (none, some msg))
      ∧ ∃ r, NewDefaultProviderRouting goLib providersP1P2 "http://p1:8080" = (some r, none)
          ∧ r.cache = [] ∧ r.defaultProvider = httpURL "p1:8080" :=
  ⟨(NewDefaultProviderRouting_result goLib ["http://p1:8080", "http://p 2:8080"]
      "http://p1:8080").1
      (Or.inl ⟨"http://p 2:8080", by decide, "invalid character in host name", by decide⟩),
    (NewDefaultProviderRouting_result goLib providersP1P2 "http://p1:8080").2
      (by
        intro v hv
        simp only [providersP1P2, List.mem_cons, List.mem_singleton, List.not_mem_nil,
          or_false] at hv
        rcases hv with hv | hv
        · exact ⟨httpURL "p1:8080", by rw [hv]; decide⟩
        · exact ⟨httpURL "p2:8080", by rw [hv]; decide⟩)
      (httpURL "p1:8080") (by decide)⟩

/-- Witness of C16: the result of provider 1 succeeds, the fetch of provider 0
fails at position 1, and a third entry with a body that does not decode
follows. -/
theorem ReadServices_stops_at_first_failure_witness :
    [answeredFetch 1 200 bodyF2, failedFetch 0, answeredFetch 1 200 "not json"].get? 1
        = some (failedFetch 0)
      ∧ ReadServices goLib
          (fun _ _ => [answeredFetch 1 200 bodyF2, failedFetch 0, answeredFetch 1 200 "not json"])
          providersP1P2
        = .ok (some ⟨mergeResults goLib providersP1P2 [answeredFetch 1 200 bodyF2]⟩, none)
      ∧ ReadServices goLib
          (fun _ _ => [answeredFetch 1 200 bodyF2, failedFetch 0, answeredFetch 1 200 "not json"])
          providersP1P2
        = ReadServices goLib
          (fun _ _ =>
            [answeredFetch 1 200 bodyF2, failedFetch 0, answeredFetch 1 200 "not json"].take 1)
          providersP1P2 :=
  ReadServices_stops_at_first_failure goLib
    (fun _ _ => [answeredFetch 1 200 bodyF2, failedFetch 0, answeredFetch 1 200 "not json"])
    providersP1P2 urlsP1P2 [answeredFetch 1 200 bodyF2] (failedFetch 0)
    [answeredFetch 1 200 "not json"] 1 (by decide) rfl rfl
    (by
      intro r hr
      simp only [List.mem_singleton] at hr
      rw [hr]
      exact ⟨answeredFetch_succeeds 1 bodyF2 [some (namedFunction "f2")] (by decide),
        ⟨by decide, by decide⟩⟩)
    (Or.inl (by decide)) ⟨by decide, by decide⟩

/-- Witness of C18 as amended: the host `p1:8080` has the hostname `p1`. -/
theorem getHostNameWithoutPorts_spec_witness :
    getHostNameWithoutPorts (httpURL "p1:8080") = "p1" :=
  getHostNameWithoutPorts_spec.1 (httpURL "p1:8080") "p1" "8080" (by decide)
    (Or.inr (by decide))

/-- Counterexample to C18 as stated: for the provider `http://[::1]:8080`,
whose `Host` is `[::1]:8080` and whose hostname is `::1`,
`getHostNameWithoutPorts` returns `[`, which is not the hostname, and `[` is
the key under which `NewDefaultProviderRouting` stores the provider. -/
theorem getHostNameWithoutPorts_spec_counterexample :
    goLibIPv6.urlParse "http://[::1]:8080" = .ok (httpURL "[::1]:8080")
      ∧ Hostname (httpURL "[::1]:8080") = "::1"
      ∧ getHostNameWithoutPorts (httpURL "[::1]:8080") = "["
      ∧ getHostNameWithoutPorts (httpURL "[::1]:8080") ≠ Hostname (httpURL "[::1]:8080")
      ∧ NewDefaultProviderRouting goLibIPv6 ["http://[::1]:8080"] "http://p1:8080"
          = (some (routingOf [("[", httpURL "[::1]:8080")]), none) := by
  decide

/-- Witness of C19: `echo` annotated with `p2` resolves to `http://p2:8080`,
which is not the default provider. -/
theorem Resolve_sound_witness :
    (httpURL "p2:8080"
          = ([echoWithAffinity "p2"].foldl AddFunction (routingOf directoryP1P2)).defaultProvider
        ∨ ∃ k, (k, httpURL "p2:8080")
            ∈ ([echoWithAffinity "p2"].foldl AddFunction (routingOf directoryP1P2)).providers)
      ∧ (httpURL "p2:8080"
          ≠ ([echoWithAffinity "p2"].foldl AddFunction (routingOf directoryP1P2)).defaultProvider →
          ∃ f a v, GetFunction ([echoWithAffinity "p2"].foldl AddFunction
              (routingOf directoryP1P2)) "echo" = (some f, true)
            ∧ f.Annotations = some a
            ∧ a.get? federationProviderNameConstraint = some v
            ∧ (getHostNameWithoutPorts (httpURL "p2:8080"), httpURL "p2:8080")
                ∈ ([echoWithAffinity "p2"].foldl AddFunction (routingOf directoryP1P2)).providers
            ∧ (∃ q ∈ providersP1P2, goLib.urlParse q = .ok (httpURL "p2:8080"))
            ∧ goLib.EqualFold (getHostNameWithoutPorts (httpURL "p2:8080")) v = true) :=
  Resolve_sound goLib providersP1P2 "http://p1:8080" (routingOf directoryP1P2)
    [echoWithAffinity "p2"] directoryP1P2 "echo" (httpURL "p2:8080") none
    NewDefaultProviderRouting_p1_p2 (List.Perm.refl _) (by decide)

end FaasFederation
